import Mathlib

/-!
# The outlier command of `pkg/expr/ml`

A shallow embedding of `outlier.go`: the command builder `unmarshalOutlierCommand`
and the executor `OutlierCommand.Execute`, followed by the properties proved
about them.

What the two functions take from outside their file is gathered in `Env`:
the JSON configuration bound to the package variable `json`, the constants
`timeFormat` and `defaultInterval`, and the result type
`backend.QueryDataResponse`.  The transport handed to `Execute` is a Go closure
and may have effects of its own; it is a function over an explicit state.
-/

set_option autoImplicit false

namespace Ml

/-! ## JSON documents -/

/-- A JSON number as it is written: an optional minus sign, the integer
digits, and whatever follows them (a fraction, an exponent, or nothing). -/
structure Number where
  neg : Bool
  digits : Nat
  rest : String
deriving DecidableEq, Repr

/-- A JSON document.  The same trees stand for the values Go decodes into
`interface{}` (`nil`, `bool`, numbers, `string`, `[]interface{}`,
`map[string]interface{}`).  An object is an association list read by first
match; documents are taken to carry each name at most once.  A number is kept
as written: Go decodes it to a `float64` and encodes that back to a number
which decodes to the same `float64`, so one tree stands for both. -/
inductive Json where
  | null
  | bool (b : Bool)
  | num (n : Number)
  | str (s : String)
  | arr (xs : List Json)
  | obj (kvs : List (String × Json))
deriving Repr

/-- The contents of a `map[string]interface{}`. -/
abbrev Fields := List (String × Json)

/-- The map read `m[k]` with its presence flag. -/
def mapIndex (m : Fields) (k : String) : Option Json :=
  match m with
  | [] => none
  | (k1, v1) :: rest => if k1 = k then some v1 else mapIndex rest k

/-- The map write `m[k] = v`: the entry of `k` is replaced when there is one,
added otherwise. -/
def mapAssign (m : Fields) (k : String) (v : Json) : Fields :=
  match m with
  | [] => [(k, v)]
  | (k1, v1) :: rest => if k1 = k then (k, v) :: rest else (k1, v1) :: mapAssign rest k v

/-- The keys a map holds. -/
def keys (m : Fields) : List String := m.map Prod.fst

/-- Go's `len` of a string: its length in bytes. -/
def len (s : String) : Nat := s.utf8ByteSize

/-- The number that `json.Marshal` writes for an `int64`. -/
def Number.ofInt (n : Int) : Number :=
  { neg := decide (n < 0), digits := n.natAbs, rest := "" }

/-- The text of a number. -/
def Number.text (n : Number) : String :=
  (if n.neg then "-" else "") ++ toString n.digits ++ n.rest

mutual
/-- The text of a document, written without blanks.  It stands for the bytes a
lazily parsed node keeps of its input, whose spacing and escapes the tree does
not record. -/
def Json.text : Json → String
  | .null => "null"
  | .bool b => if b then "true" else "false"
  | .num n => n.text
  | .str s => "\"" ++ s ++ "\""
  | .arr xs => "[" ++ Json.textItems xs ++ "]"
  | .obj kvs => "\x7b" ++ Json.textMembers kvs ++ "\x7d"
/-- The items of an array, comma separated. -/
def Json.textItems : List Json → String
  | [] => ""
  | [x] => x.text
  | x :: y :: xs => x.text ++ "," ++ Json.textItems (y :: xs)
/-- The members of an object, comma separated. -/
def Json.textMembers : List (String × Json) → String
  | [] => ""
  | [(k, v)] => "\"" ++ k ++ "\":" ++ v.text
  | (k, v) :: kv :: kvs => "\"" ++ k ++ "\":" ++ v.text ++ "," ++ Json.textMembers (kv :: kvs)
end

/-! ## Go errors -/

/-- A Go `error` value: one made by `errors.New` (or by `fmt.Errorf` without
`%w`, or by a collaborator), or one made by `fmt.Errorf` with `%w`, which keeps
its cause for `errors.Unwrap`. -/
inductive GoError where
  | New (text : String)
  | Wrap (text : String) (cause : GoError)
deriving DecidableEq, Repr

/-- The method `Error()`: the message. -/
def GoError.Error : GoError → String
  | .New text => text
  | .Wrap text _ => text

/-- The function `errors.Unwrap`. -/
def GoError.Unwrap : GoError → Option GoError
  | .New _ => none
  | .Wrap _ cause => some cause

/-- The call `fmt.Errorf(format, err)` whose format is `pre` followed by `%w`. -/
def Errorf_w (pre : String) (err : GoError) : GoError :=
  .Wrap (pre ++ err.Error) err

/-! ## Durations and 64-bit integers -/

/-- The value an `int64` holds after an arithmetic result `n`: `n` modulo
`2^64`, in the signed range. -/
def wrapInt64 (n : Int) : Int := (n + 2 ^ 63) % 2 ^ 64 - 2 ^ 63

/-- The constant `time.Millisecond`, in nanoseconds. -/
def Millisecond : Int := 1000000

/-- The method `Duration.Milliseconds`: `int64(d) / 1e6`, Go's division, which
truncates toward zero. -/
def Milliseconds (d : Int) : Int := Int.tdiv d 1000000

/-! ## jsoniter.Any -/

/-- The type `jsoniter.ValueType`. -/
inductive ValueType where
  | InvalidValue
  | StringValue
  | NumberValue
  | NilValue
  | BoolValue
  | ArrayValue
  | ObjectValue
deriving DecidableEq, Repr

/-- A `jsoniter.Any`: a node of a parsed document, or the invalid node that
`Get` returns for a path that leads nowhere. -/
inductive Any where
  | invalid
  | node (j : Json)

/-- The method `Any.Get` with one string key: the first member of that name
of an object, the invalid node in every other case. -/
def Any.Get (a : Any) (key : String) : Any :=
  match a with
  | .node (.obj kvs) =>
    match mapIndex kvs key with
    | some v => .node v
    | none => .invalid
  | _ => .invalid

/-- The method `Any.ValueType`. -/
def Any.ValueType : Any → ValueType
  | .invalid => .InvalidValue
  | .node .null => .NilValue
  | .node (.bool _) => .BoolValue
  | .node (.num _) => .NumberValue
  | .node (.str _) => .StringValue
  | .node (.arr _) => .ArrayValue
  | .node (.obj _) => .ObjectValue

/-- What `Any.ToInt64` does for a number: `Iterator.ReadInt64` on the text
of the number.  It reads the sign and the integer digits and stops there, so a
fraction or an exponent is dropped.  When the digits do not fit an `int64` the
iterator records an overflow and what it leaves in the result is `overflow`
(a parameter: it depends on the iterator's digit loop). -/
def Number.ToInt64 (overflow : Number → Int) (n : Number) : Int :=
  if n.neg then
    if n.digits ≤ 2 ^ 63 then -(n.digits : Int) else overflow n
  else
    if n.digits ≤ 2 ^ 63 - 1 then (n.digits : Int) else overflow n

/-- The method `Any.ToInt64` on a number node, the one kind of node the
builder calls it on; the other kinds are given 0 here. -/
def Any.ToInt64 (overflow : Number → Int) : Any → Int
  | .node (.num n) => n.ToInt64 overflow
  | _ => 0

/-- The method `Any.ToString`: the value of a string node, the empty string
for `null` and for the invalid node, and the text of any other node. -/
def Any.ToString : Any → String
  | .invalid => ""
  | .node .null => ""
  | .node (.str s) => s
  | .node j => j.text

/-- The method `Any.GetInterface`: the node as a Go value.  For an object Go
builds a map; were a name repeated the map would keep its last value, where
`Get` reads the first, so the tree is taken to carry each name once (see
`Json`). -/
def Any.GetInterface : Any → Json
  | .invalid => .null
  | .node j => j

/-! ## The package environment -/

/-- The response envelope that `Execute` decodes the reply into. -/
structure Resp (R : Type) where
  Status : String
  Data : Option R
  Error : String

/-- What `outlier.go` uses and does not define.  `B` is `[]byte`, `R` is
`backend.QueryDataResponse`, `T` is `time.Time`.

* `Marshal` is `json.Marshal` on a document.  It fails only on values that have
  no JSON form (channels, functions, NaN, cycles); a `Json` tree has none, so
  it is total and the error branches after it in the source are not reached.
* `UnmarshalMap` is `json.Unmarshal` into a `map[string]interface{}`; the
  document `null` leaves the map `nil`, which is `none`.
* `UnmarshalResp` is `json.Unmarshal` into the response envelope.
* `Format t` is `t.Format(timeFormat)`.
* `defaultInterval` is the constant of that name, in nanoseconds.
* `overflow` is what `ReadInt64` returns for digits that do not fit. -/
structure Env (B R T : Type) where
  Marshal : Json → B
  UnmarshalMap : B → Except GoError (Option Fields)
  UnmarshalResp : B → Except GoError (Resp R)
  Format : T → String
  defaultInterval : Int
  overflow : Number → Int

/-! ## The command -/

/-- The struct `OutlierCommand`; `interval` is a `time.Duration`, an `int64`
count of nanoseconds. -/
structure OutlierCommand (B : Type) where
  query : B
  datasourceUID : String
  appURL : String
  interval : Int

/-- The method `DatasourceUID`. -/
def OutlierCommand.DatasourceUID {B : Type} (c : OutlierCommand B) : String :=
  c.datasourceUID

/-- The transport parameter of `Execute`,
`func(path string, payload []byte) ([]byte, error)`, over the state `σ` of
whatever the closure touches. -/
abbrev Transport (B σ : Type) := String → B → σ → Except GoError B × σ

/-- How a call of `Execute` ends: with a result and no error, with an error
and no result, or in the run-time panic of a write to a `nil` map. -/
inductive Outcome (α : Type) where
  | ok (result : α)
  | fail (err : GoError)
  | nilMapWrite

/-- The method `OutlierCommand.Execute`. -/
def Execute {B R T σ : Type} (env : Env B R T) (c : OutlierCommand B) (from_ to_ : T)
    (execute : Transport B σ) (s : σ) : Outcome (Option R) × σ :=
  match env.UnmarshalMap c.query with
  | .error err => (.fail err, s)
  | .ok none => (.nilMapWrite, s)
  | .ok (some dataMap) =>
    let dataMap := mapAssign dataMap "start_end_attributes" (.obj [
      ("start", .str (env.Format from_)),
      ("end", .str (env.Format to_)),
      ("interval", .num (Number.ofInt (Milliseconds c.interval)))])
    let dataMap := mapAssign dataMap "grafana_url" (.str c.appURL)
    let payload := Json.obj [("data", .obj [("attributes", .obj dataMap)])]
    let body := env.Marshal payload
    match execute "/proxy/api/v1/outlier" body s with
    | (.error err, s1) => (.fail err, s1)
    | (.ok responseBody, s1) =>
      match env.UnmarshalResp responseBody with
      | .error err =>
        (.fail (Errorf_w "cannot umarshall response from plugin API: " err), s1)
      | .ok resp =>
        if len resp.Error > 0 then (.fail (.New resp.Error), s1)
        else (.ok resp.Data, s1)

/-- The function `unmarshalOutlierCommand`. -/
def unmarshalOutlierCommand {B R T : Type} (env : Env B R T) (q : Any) (appURL : String) :
    Except GoError (OutlierCommand B) :=
  let intervalNode := q.Get "intervalMs"
  let checked : Except GoError Int :=
    match intervalNode.ValueType with
    | .NilValue => .ok env.defaultInterval
    | .InvalidValue => .ok env.defaultInterval
    | .NumberValue => .ok (wrapInt64 (intervalNode.ToInt64 env.overflow * Millisecond))
    | _ => .error (.New "field `intervalMs` is expected to be a number")
  match checked with
  | .error err => .error err
  | .ok interval =>
    let cfgNode := q.Get "config"
    if cfgNode.ValueType ≠ .ObjectValue then
      .error (.New "field `config` is required and should be object")
    else
      let ds := (cfgNode.Get "datasource_uid").ToString
      if len ds = 0 then
        .error (.New "field `config.datasource_uid` is required and should be string")
      else
        let d := env.Marshal cfgNode.GetInterface
        .ok { query := d, datasourceUID := ds, interval := interval, appURL := appURL }

/-! ## A transport that keeps a record, and an environment over trees -/

/-- The transport `t` with a record of the calls made to it, oldest first. -/
def recording {B σ : Type} (t : Transport B σ) : Transport B (σ × List (String × B)) :=
  fun path payload st =>
    let r := t path payload st.1
    (r.1, (r.2, st.2 ++ [(path, payload)]))

/-- The attributes document wrapped the way `Execute` wraps it. -/
def envelope (attributes : Fields) : Json :=
  .obj [("data", .obj [("attributes", .obj attributes)])]

/-- The data member of a reply, as the tree environment decodes it. -/
def treeData (kvs : Fields) : Option Json :=
  match mapIndex kvs "data" with
  | some .null => none
  | other => other

/-- The string member `k` of a reply: absent and `null` leave the field empty,
a value of another type is a decode error. -/
def treeString (kvs : Fields) (k : String) : Except GoError String :=
  match mapIndex kvs k with
  | none => .ok ""
  | some .null => .ok ""
  | some (.str s) => .ok s
  | some _ => .error (.New ("cannot unmarshal into Go struct field ." ++ k ++ " of type string"))

/-- An environment in which the bytes on the wire are the document they spell,
`none` standing for bytes that spell none.  It is a stand-in for examples: the
result type is the data member itself, kept as a tree, so every data member
decodes (`resultEnv` has a typed one); the texts of its decode errors and the
value of `overflow` are placeholders.  Times are seconds, written in decimal;
the default interval is one minute. -/
def treeEnv : Env (Option Json) Json Nat where
  Marshal := fun j => some j
  UnmarshalMap := fun b =>
    match b with
    | none => .error (.New "unexpected end of JSON input")
    | some (.obj kvs) => .ok (some kvs)
    | some .null => .ok none
    | some _ => .error (.New "cannot unmarshal into Go value of type map[string]interface \x7b\x7d")
  UnmarshalResp := fun b =>
    match b with
    | none => .error (.New "unexpected end of JSON input")
    | some (.obj kvs) =>
      match treeString kvs "status", treeString kvs "error" with
      | .ok st, .ok er => .ok { Status := st, Data := treeData kvs, Error := er }
      | .error e, _ => .error e
      | _, .error e => .error e
    | some .null => .ok { Status := "", Data := none, Error := "" }
    | some _ => .error (.New "cannot unmarshal into Go value of type struct")
  Format := fun t => toString t
  defaultInterval := 60000000000
  overflow := fun _ => 0

/-- A transport without state that answers every call with `reply`. -/
def replying {B : Type} (reply : Except GoError B) : Transport B Unit :=
  fun _ _ s => (reply, s)

/-- The data member of a reply decoded as a `backend.QueryDataResponse`, of
which the responses by reference id are kept: an object that is empty, or that
has the one member `results`, itself an object.  Any other value, a string for
one, is a decode error. -/
def decodeResult (data : Json) : Except GoError Fields :=
  match data with
  | .obj [] => .ok []
  | .obj [(name, .obj responses)] =>
    if name = "results" then .ok responses
    else .error (.New ("unexpected field: " ++ name))
  | _ => .error (.New "data is not a query data response")

/-- The tree environment with a typed result: the data member of a reply is
decoded by `decodeResult`, and the reply does not decode when it does not. -/
def resultEnv : Env (Option Json) Fields Nat where
  Marshal := treeEnv.Marshal
  UnmarshalMap := treeEnv.UnmarshalMap
  UnmarshalResp := fun b =>
    match b with
    | none => .error (.New "unexpected end of JSON input")
    | some (.obj kvs) =>
      match treeString kvs "status", treeString kvs "error" with
      | .ok st, .ok er =>
        match mapIndex kvs "data" with
        | none => .ok { Status := st, Data := none, Error := er }
        | some .null => .ok { Status := st, Data := none, Error := er }
        | some data =>
          match decodeResult data with
          | .ok responses => .ok { Status := st, Data := some responses, Error := er }
          | .error e => .error e
      | .error e, _ => .error e
      | _, .error e => .error e
    | some .null => .ok { Status := "", Data := none, Error := "" }
    | some _ => .error (.New "cannot unmarshal into Go value of type struct")
  Format := treeEnv.Format
  defaultInterval := treeEnv.defaultInterval
  overflow := treeEnv.overflow

/-! ## Sample inputs -/

/-- A stored query that already carries the two names `Execute` writes. -/
def sampleQuery : Fields :=
  [("datasource_uid", .str "abc"),
   ("grafana_url", .str "http://caller"),
   ("algorithm", .obj [("name", .str "dbscan")]),
   ("start_end_attributes", .null)]

/-- A command over the tree environment: five seconds of interval. -/
def sampleCommand : OutlierCommand (Option Json) :=
  { query := some (.obj sampleQuery), datasourceUID := "abc", appURL := "https://x",
    interval := 5000000000 }

/-- The query document of the end-to-end scenario. -/
def sampleDocument : Any :=
  .node (.obj [
    ("config", .obj [("datasource_uid", .str "abc"), ("algorithm", .obj [("name", .str "dbscan")])]),
    ("intervalMs", .num (Number.ofInt 5000))])

/-- The command that the builder makes of `sampleDocument` for the caller
`https://x`. -/
def sampleBuilt : OutlierCommand (Option Json) :=
  { query := some (.obj [("datasource_uid", .str "abc"),
      ("algorithm", .obj [("name", .str "dbscan")])]),
    datasourceUID := "abc", appURL := "https://x", interval := 5000000000 }

/-- A query document without `intervalMs`. -/
def sampleDocumentNoInterval : Any :=
  .node (.obj [("config", .obj [("datasource_uid", .str "abc")])])

/-- A query document whose `datasource_uid` is the number 123. -/
def numericUidDocument : Any :=
  .node (.obj [("config", .obj [("datasource_uid", .num (Number.ofInt 123))])])

/-- A reply with a result and no error. -/
def successReply : Option Json :=
  some (.obj [("status", .str "success"), ("data", .obj [("k", .str "v")])])

/-- A reply whose status says `error` while its error field is absent. -/
def errorStatusReply : Option Json :=
  some (.obj [("status", .str "error"), ("data", .obj [("k", .str "v")])])

/-- A transport over trees that fails every call with one error. -/
def refusing : Transport (Option Json) Unit :=
  replying (.error (.New "connection refused"))

/-- A reply with the error text `boom`, a success status and an empty result. -/
def boomResultReply : Option Json :=
  some (.obj [("status", .str "success"),
    ("data", .obj [("results", .obj [])]), ("error", .str "boom")])

/-- A reply with the error text `boom` whose data member is a string. -/
def boomBadDataReply : Option Json :=
  some (.obj [("status", .str "error"), ("error", .str "boom"), ("data", .str "oops")])

/-- A reply that carries an error text, a success status and data. -/
def boomReply : Option Json :=
  some (.obj [("status", .str "success"), ("data", .obj [("k", .str "v")]), ("error", .str "boom")])

end Ml

namespace Ml

/-! ## Maps: reading after writing -/

theorem mapIndex_mapAssign_self (m : Fields) (k : String) (v : Json) :
    mapIndex (mapAssign m k v) k = some v := by
  induction m with
  | nil => simp [mapAssign, mapIndex]
  | cons kv rest ih =>
    obtain ⟨k1, v1⟩ := kv
    by_cases h : k1 = k
    · simp [mapAssign, mapIndex, h]
    · simp [mapAssign, mapIndex, h, ih]

theorem mapIndex_mapAssign_ne (m : Fields) (k j : String) (v : Json) (hj : j ≠ k) :
    mapIndex (mapAssign m k v) j = mapIndex m j := by
  induction m with
  | nil => simp [mapAssign, mapIndex, Ne.symm hj]
  | cons kv rest ih =>
    obtain ⟨k1, v1⟩ := kv
    by_cases h : k1 = k
    · subst h
      simp [mapAssign, mapIndex, Ne.symm hj]
    · by_cases h1 : k1 = j
      · subst h1
        simp [mapAssign, mapIndex, h]
      · simp [mapAssign, mapIndex, h, h1, ih]

theorem mem_keys_mapAssign (m : Fields) (k j : String) (v : Json) :
    j ∈ keys (mapAssign m k v) ↔ j ∈ keys m ∨ j = k := by
  induction m with
  | nil => simp [mapAssign, keys]
  | cons kv rest ih =>
    obtain ⟨k1, v1⟩ := kv
    by_cases h : k1 = k
    · subst h
      simp only [mapAssign, if_true, keys, List.map_cons, List.mem_cons]
      tauto
    · have ih1 : j ∈ List.map Prod.fst (mapAssign rest k v) ↔
          j ∈ List.map Prod.fst rest ∨ j = k := ih
      simp only [mapAssign, h, if_false, keys, List.map_cons, List.mem_cons, ih1]
      tauto

theorem mapIndex_eq_none_iff (m : Fields) (k : String) :
    mapIndex m k = none ↔ k ∉ keys m := by
  induction m with
  | nil => simp [mapIndex, keys]
  | cons kv rest ih =>
    obtain ⟨k1, v1⟩ := kv
    have ih1 : mapIndex rest k = none ↔ k ∉ List.map Prod.fst rest := ih
    by_cases h : k1 = k
    · simp [mapIndex, keys, h]
    · simp only [mapIndex, h, if_false, keys, List.map_cons, List.mem_cons, ih1]
      constructor
      · intro hr hk
        rcases hk with hk | hk
        · exact h hk.symm
        · exact hr hk
      · intro hr hk
        exact hr (Or.inr hk)

theorem mem_keys_of_mapIndex_eq (m n : Fields) (h : ∀ k, mapIndex m k = mapIndex n k)
    (k : String) : k ∈ keys m ↔ k ∈ keys n := by
  have h1 := mapIndex_eq_none_iff m k
  have h2 := mapIndex_eq_none_iff n k
  rw [h k] at h1
  constructor
  · intro hm
    by_contra hn
    exact (h1.1 (h2.2 hn)) hm
  · intro hn
    by_contra hm
    exact (h2.1 (h1.2 hm)) hn

theorem nodup_keys_mapAssign (m : Fields) (k : String) (v : Json)
    (hm : (keys m).Nodup) : (keys (mapAssign m k v)).Nodup := by
  induction m with
  | nil => simp [mapAssign, keys]
  | cons kv rest ih =>
    obtain ⟨k1, v1⟩ := kv
    have hm1 : k1 ∉ keys rest ∧ (keys rest).Nodup := by
      simpa [keys] using hm
    by_cases h : k1 = k
    · subst h
      simpa [mapAssign, keys] using hm
    · have hk : k1 ∉ keys (mapAssign rest k v) := by
        rw [mem_keys_mapAssign]
        rintro (hk | hk)
        · exact hm1.1 hk
        · exact h hk
      have hn := ih hm1.2
      simp only [mapAssign, h, if_false]
      show (k1 :: keys (mapAssign rest k v)).Nodup
      exact List.nodup_cons.2 ⟨hk, hn⟩

theorem mem_mapAssign_self (m : Fields) (k : String) (v w : Json)
    (hm : (keys m).Nodup) (hw : (k, w) ∈ mapAssign m k v) : w = v := by
  induction m with
  | nil => simpa [mapAssign] using hw
  | cons kv rest ih =>
    obtain ⟨k1, v1⟩ := kv
    have hm1 : k1 ∉ keys rest ∧ (keys rest).Nodup := by
      simpa [keys] using hm
    by_cases h : k1 = k
    · subst h
      simp only [mapAssign, if_true, List.mem_cons, Prod.mk.injEq, true_and] at hw
      rcases hw with hw | hw
      · exact hw
      · exact absurd (List.mem_map_of_mem Prod.fst hw) hm1.1
    · simp only [mapAssign, h, if_false, List.mem_cons, Prod.mk.injEq] at hw
      rcases hw with hw | hw
      · exact absurd hw.1.symm h
      · exact ih hm1.2 hw

theorem mem_of_mem_mapAssign_ne (m : Fields) (k j : String) (v w : Json) (hj : j ≠ k)
    (hw : (j, w) ∈ mapAssign m k v) : (j, w) ∈ m := by
  induction m with
  | nil =>
    simp only [mapAssign, List.mem_singleton, Prod.mk.injEq] at hw
    exact absurd hw.1 hj
  | cons kv rest ih =>
    obtain ⟨k1, v1⟩ := kv
    by_cases h : k1 = k
    · subst h
      simp only [mapAssign, if_true, List.mem_cons, Prod.mk.injEq] at hw
      rcases hw with hw | hw
      · exact absurd hw.1 hj
      · exact List.mem_cons_of_mem _ hw
    · simp only [mapAssign, h, if_false, List.mem_cons] at hw
      rcases hw with hw | hw
      · exact hw ▸ List.mem_cons_self _ _
      · exact List.mem_cons_of_mem _ (ih hw)

/-! ## The length of a string -/

theorem utf8ByteSize_go_pos (c : Char) (cs : List Char) :
    0 < String.utf8ByteSize.go (c :: cs) := by
  have h : 0 < c.utf8Size := Char.utf8Size_pos c
  simp only [String.utf8ByteSize.go]
  omega

theorem len_eq_zero_iff (s : String) : len s = 0 ↔ s = "" := by
  obtain ⟨cs⟩ := s
  cases cs with
  | nil => simp [len, String.utf8ByteSize, String.utf8ByteSize.go]
  | cons c cs =>
    have h := utf8ByteSize_go_pos c cs
    constructor
    · intro h0
      simp only [len, String.utf8ByteSize] at h0
      omega
    · intro h0
      exact absurd (congrArg String.data h0) (by simp)

theorem len_pos_iff (s : String) : 0 < len s ↔ s ≠ "" := by
  rw [Nat.pos_iff_ne_zero, Ne, len_eq_zero_iff]

end Ml

namespace Ml

/-! ## Execute: the call it makes and how it ends -/

theorem mem_of_mapIndex_eq_some (m : Fields) (k : String) (v : Json)
    (h : mapIndex m k = some v) : (k, v) ∈ m := by
  induction m with
  | nil => simp [mapIndex] at h
  | cons kv rest ih =>
    obtain ⟨k1, v1⟩ := kv
    by_cases h1 : k1 = k
    · subst h1
      simp only [mapIndex, if_true, Option.some.injEq] at h
      subst h
      exact List.mem_cons_self _ _
    · simp only [mapIndex, h1, if_false] at h
      exact List.mem_cons_of_mem _ (ih h)

theorem Execute_recording_calls {B R T σ : Type} (env : Env B R T) (c : OutlierCommand B)
    (from_ to_ : T) (tr : Transport B σ) (s : σ) (m : Fields)
    (hq : env.UnmarshalMap c.query = .ok (some m)) :
    (Execute env c from_ to_ (recording tr) (s, [])).2.2 =
      [("/proxy/api/v1/outlier",
        env.Marshal (envelope (mapAssign (mapAssign m "start_end_attributes" (.obj [
          ("start", .str (env.Format from_)),
          ("end", .str (env.Format to_)),
          ("interval", .num (Number.ofInt (Int.tdiv c.interval 1000000)))]))
          "grafana_url" (.str c.appURL))))] := by
  simp only [Execute, hq, recording, envelope, Milliseconds]
  rcases tr _ _ s with ⟨r, s1⟩
  cases r with
  | error e => rfl
  | ok reply =>
    simp only
    cases env.UnmarshalResp reply with
    | error e => rfl
    | ok resp =>
      simp only
      split <;> rfl

theorem Execute_of_reply {B R T σ : Type} (env : Env B R T) (c : OutlierCommand B)
    (from_ to_ : T) (tr : Transport B σ) (s : σ) (m : Fields) (reply : B)
    (hq : env.UnmarshalMap c.query = .ok (some m))
    (ht : ∀ path body, (tr path body s).1 = .ok reply) :
    (Execute env c from_ to_ tr s).1 =
      match env.UnmarshalResp reply with
      | .error err => .fail (Errorf_w "cannot umarshall response from plugin API: " err)
      | .ok resp => if len resp.Error > 0 then .fail (.New resp.Error) else .ok resp.Data := by
  simp only [Execute, hq]
  generalize env.Marshal _ = body
  have h1 := ht "/proxy/api/v1/outlier" body
  rcases hr : tr "/proxy/api/v1/outlier" body s with ⟨r, s1⟩
  rw [hr] at h1
  simp only at h1
  subst h1
  simp only
  cases env.UnmarshalResp reply with
  | error e => rfl
  | ok resp =>
    simp only
    split <;> rfl

theorem Execute_of_transport_error {B R T σ : Type} (env : Env B R T) (c : OutlierCommand B)
    (from_ to_ : T) (tr : Transport B σ) (s : σ) (m : Fields) (e : GoError)
    (hq : env.UnmarshalMap c.query = .ok (some m))
    (ht : ∀ path body, (tr path body s).1 = .error e) :
    (Execute env c from_ to_ tr s).1 = .fail e := by
  simp only [Execute, hq]
  generalize env.Marshal _ = body
  have h1 := ht "/proxy/api/v1/outlier" body
  rcases hr : tr "/proxy/api/v1/outlier" body s with ⟨r, s1⟩
  rw [hr] at h1
  simp only at h1
  subst h1
  rfl

/-! ## The request: claims C1, C2, C7, C8 -/

/-- C1.  When the stored query decodes to the object `m`, the one body handed
to the transport is the encoding of `{"data":{"attributes":A}}` for a map `A`
that agrees with `m` at every key other than `start_end_attributes` and
`grafana_url`, and whose keys are those of `m` and these two. -/
theorem Execute_attributes_frame {B R T σ : Type} (env : Env B R T) (c : OutlierCommand B)
    (from_ to_ : T) (tr : Transport B σ) (s : σ) (m : Fields)
    (hq : env.UnmarshalMap c.query = .ok (some m)) :
    ∃ A : Fields,
      (Execute env c from_ to_ (recording tr) (s, [])).2.2 =
        [("/proxy/api/v1/outlier",
          env.Marshal (.obj [("data", .obj [("attributes", .obj A)])]))] ∧
      (∀ k, k ≠ "start_end_attributes" → k ≠ "grafana_url" → mapIndex A k = mapIndex m k) ∧
      (∀ k, k ∈ keys A ↔ (k ∈ keys m ∨ k = "start_end_attributes" ∨ k = "grafana_url")) := by
  refine ⟨_, Execute_recording_calls env c from_ to_ tr s m hq, ?_, ?_⟩
  · intro k h1 h2
    rw [mapIndex_mapAssign_ne _ _ _ _ h2, mapIndex_mapAssign_ne _ _ _ _ h1]
  · intro k
    rw [mem_keys_mapAssign, mem_keys_mapAssign, or_assoc]

theorem Execute_attributes_frame_witness :
    treeEnv.UnmarshalMap sampleCommand.query = .ok (some sampleQuery) ∧
    ∃ A : Fields,
      (Execute treeEnv sampleCommand 0 3600 (recording (replying (.ok successReply)))
          ((), [])).2.2 =
        [("/proxy/api/v1/outlier",
          treeEnv.Marshal (.obj [("data", .obj [("attributes", .obj A)])]))] ∧
      (∀ k, k ≠ "start_end_attributes" → k ≠ "grafana_url" →
        mapIndex A k = mapIndex sampleQuery k) ∧
      (∀ k, k ∈ keys A ↔
        (k ∈ keys sampleQuery ∨ k = "start_end_attributes" ∨ k = "grafana_url")) :=
  ⟨rfl, Execute_attributes_frame treeEnv sampleCommand 0 3600
    (replying (.ok successReply)) () sampleQuery rfl⟩

/-- C2.  The attributes sent carry, under `start_end_attributes`, the object
whose `start` is `from` in the layout `timeFormat`, whose `end` is `to` in the
same layout and whose `interval` is the command's interval divided by one
million nanoseconds (truncated), and under `grafana_url` the command's
`appURL`. -/
theorem Execute_injected_values {B R T σ : Type} (env : Env B R T) (c : OutlierCommand B)
    (from_ to_ : T) (tr : Transport B σ) (s : σ) (m : Fields)
    (hq : env.UnmarshalMap c.query = .ok (some m)) :
    ∃ A se : Fields,
      (Execute env c from_ to_ (recording tr) (s, [])).2.2 =
        [("/proxy/api/v1/outlier", env.Marshal (envelope A))] ∧
      mapIndex A "start_end_attributes" = some (.obj se) ∧
      mapIndex se "start" = some (.str (env.Format from_)) ∧
      mapIndex se "end" = some (.str (env.Format to_)) ∧
      mapIndex se "interval" = some (.num (Number.ofInt (Int.tdiv c.interval 1000000))) ∧
      keys se = ["start", "end", "interval"] ∧
      mapIndex A "grafana_url" = some (.str c.appURL) := by
  refine ⟨_, [("start", .str (env.Format from_)), ("end", .str (env.Format to_)),
      ("interval", .num (Number.ofInt (Int.tdiv c.interval 1000000)))],
    Execute_recording_calls env c from_ to_ tr s m hq, ?_, ?_, ?_, ?_, ?_, ?_⟩
  · rw [mapIndex_mapAssign_ne _ _ _ _ (by decide), mapIndex_mapAssign_self]
  · simp [mapIndex]
  · simp [mapIndex]
  · simp [mapIndex]
  · rfl
  · rw [mapIndex_mapAssign_self]

theorem Execute_injected_values_witness :
    treeEnv.UnmarshalMap sampleCommand.query = .ok (some sampleQuery) ∧
    ∃ A se : Fields,
      (Execute treeEnv sampleCommand 0 3600 (recording (replying (.ok successReply)))
          ((), [])).2.2 =
        [("/proxy/api/v1/outlier", treeEnv.Marshal (envelope A))] ∧
      mapIndex A "start_end_attributes" = some (.obj se) ∧
      mapIndex se "start" = some (.str (treeEnv.Format 0)) ∧
      mapIndex se "end" = some (.str (treeEnv.Format 3600)) ∧
      mapIndex se "interval" =
        some (.num (Number.ofInt (Int.tdiv sampleCommand.interval 1000000))) ∧
      keys se = ["start", "end", "interval"] ∧
      mapIndex A "grafana_url" = some (.str sampleCommand.appURL) :=
  ⟨rfl, Execute_injected_values treeEnv sampleCommand 0 3600
    (replying (.ok successReply)) () sampleQuery rfl⟩

/-- C7.  When the stored query decodes to an object, `Execute` calls the
transport exactly once, and the path of that call is
`/proxy/api/v1/outlier`. -/
theorem Execute_one_call {B R T σ : Type} (env : Env B R T) (c : OutlierCommand B)
    (from_ to_ : T) (tr : Transport B σ) (s : σ) (m : Fields)
    (hq : env.UnmarshalMap c.query = .ok (some m)) :
    ∃ body : B,
      (Execute env c from_ to_ (recording tr) (s, [])).2.2 =
        [("/proxy/api/v1/outlier", body)] ∧
      (Execute env c from_ to_ (recording tr) (s, [])).2.2.length = 1 := by
  have h := Execute_recording_calls env c from_ to_ tr s m hq
  exact ⟨_, h, by rw [h]; rfl⟩

theorem Execute_one_call_witness :
    treeEnv.UnmarshalMap sampleCommand.query = .ok (some sampleQuery) ∧
    ∃ body : Option Json,
      (Execute treeEnv sampleCommand 0 3600 (recording (replying (.ok boomReply)))
          ((), [])).2.2 = [("/proxy/api/v1/outlier", body)] ∧
      (Execute treeEnv sampleCommand 0 3600 (recording (replying (.ok boomReply)))
          ((), [])).2.2.length = 1 :=
  ⟨rfl, Execute_one_call treeEnv sampleCommand 0 3600
    (replying (.ok boomReply)) () sampleQuery rfl⟩

/-- C8.  When the stored query already has `start_end_attributes` or
`grafana_url` among its keys (each key once, as in a Go map), the attributes
sent hold under each of the two keys one value only, the injected one: the
window object and the command's `appURL`. -/
theorem Execute_overwrites_caller_keys {B R T σ : Type} (env : Env B R T)
    (c : OutlierCommand B) (from_ to_ : T) (tr : Transport B σ) (s : σ) (m : Fields)
    (hq : env.UnmarshalMap c.query = .ok (some m))
    (hnd : (keys m).Nodup)
    (_hk : "start_end_attributes" ∈ keys m ∨ "grafana_url" ∈ keys m) :
    ∃ A : Fields,
      (Execute env c from_ to_ (recording tr) (s, [])).2.2 =
        [("/proxy/api/v1/outlier", env.Marshal (envelope A))] ∧
      (∀ v, ("start_end_attributes", v) ∈ A ↔ v = .obj [
          ("start", .str (env.Format from_)),
          ("end", .str (env.Format to_)),
          ("interval", .num (Number.ofInt (Int.tdiv c.interval 1000000)))]) ∧
      (∀ v, ("grafana_url", v) ∈ A ↔ v = .str c.appURL) := by
  refine ⟨_, Execute_recording_calls env c from_ to_ tr s m hq, ?_, ?_⟩
  · intro v
    constructor
    · intro hv
      exact mem_mapAssign_self m _ _ v hnd
        (mem_of_mem_mapAssign_ne _ _ _ _ v (by decide) hv)
    · intro hv
      subst hv
      apply mem_of_mapIndex_eq_some
      rw [mapIndex_mapAssign_ne _ _ _ _ (by decide), mapIndex_mapAssign_self]
  · intro v
    constructor
    · intro hv
      exact mem_mapAssign_self _ _ _ v (nodup_keys_mapAssign m _ _ hnd) hv
    · intro hv
      subst hv
      apply mem_of_mapIndex_eq_some
      rw [mapIndex_mapAssign_self]

theorem Execute_overwrites_caller_keys_witness :
    treeEnv.UnmarshalMap sampleCommand.query = .ok (some sampleQuery) ∧
    (keys sampleQuery).Nodup ∧
    ("start_end_attributes" ∈ keys sampleQuery ∨ "grafana_url" ∈ keys sampleQuery) ∧
    ∃ A : Fields,
      (Execute treeEnv sampleCommand 0 3600 (recording (replying (.ok successReply)))
          ((), [])).2.2 =
        [("/proxy/api/v1/outlier", treeEnv.Marshal (envelope A))] ∧
      (∀ v, ("start_end_attributes", v) ∈ A ↔ v = .obj [
          ("start", .str (treeEnv.Format 0)),
          ("end", .str (treeEnv.Format 3600)),
          ("interval", .num (Number.ofInt (Int.tdiv sampleCommand.interval 1000000)))]) ∧
      (∀ v, ("grafana_url", v) ∈ A ↔ v = .str sampleCommand.appURL) :=
  ⟨rfl, by decide, by decide, Execute_overwrites_caller_keys treeEnv sampleCommand 0 3600
    (replying (.ok successReply)) () sampleQuery rfl (by decide) (by decide)⟩

end Ml

namespace Ml

/-! ## The reply: claims C3, C4, C5, C6 -/

/-- C3, amended.  When the reply decodes to an envelope, its data member
included, and the `error` field of the envelope is not empty, `Execute`
returns no result and an error made by `errors.New` of that field: its message
is the field, it wraps nothing.  The `status` and the decoded `data` of the
envelope are arbitrary. -/
theorem Execute_application_error {B R T σ : Type} (env : Env B R T) (c : OutlierCommand B)
    (from_ to_ : T) (tr : Transport B σ) (s : σ) (m : Fields) (reply : B) (resp : Resp R)
    (hq : env.UnmarshalMap c.query = .ok (some m))
    (ht : ∀ path body, (tr path body s).1 = .ok reply)
    (hr : env.UnmarshalResp reply = .ok resp)
    (he : resp.Error ≠ "") :
    ∃ err : GoError,
      (Execute env c from_ to_ tr s).1 = .fail err ∧
      err.Error = resp.Error ∧ err.Unwrap = none := by
  refine ⟨.New resp.Error, ?_, rfl, rfl⟩
  rw [Execute_of_reply env c from_ to_ tr s m reply hq ht, hr]
  simp only
  rw [if_pos ((len_pos_iff _).2 he)]

theorem Execute_application_error_witness :
    resultEnv.UnmarshalMap sampleCommand.query = .ok (some sampleQuery) ∧
    (∀ path body, (replying (.ok boomResultReply) path body ()).1 = .ok boomResultReply) ∧
    resultEnv.UnmarshalResp boomResultReply =
      .ok { Status := "success", Data := some [], Error := "boom" } ∧
    "boom" ≠ "" ∧
    ∃ err : GoError,
      (Execute resultEnv sampleCommand 0 3600 (replying (.ok boomResultReply)) ()).1 =
        .fail err ∧
      err.Error = "boom" ∧ err.Unwrap = none :=
  ⟨rfl, fun _ _ => rfl, rfl, by decide,
    Execute_application_error resultEnv sampleCommand 0 3600 (replying (.ok boomResultReply))
      () sampleQuery boomResultReply
      { Status := "success", Data := some [], Error := "boom" }
      rfl (fun _ _ => rfl) rfl (by decide)⟩

/-- C3 at a reply whose data does not decode.  The reply
`{"status":"error","error":"boom","data":"oops"}` carries the error text
`boom`, and `Execute` fails with the wrapped decode error: the reply is decoded
as a whole, the data member with it, before the `error` field is looked at, so
the message is not `boom`. -/
theorem Execute_error_field_after_decode :
    ∃ d : GoError,
      boomBadDataReply =
        some (.obj [("status", .str "error"), ("error", .str "boom"), ("data", .str "oops")]) ∧
      resultEnv.UnmarshalResp boomBadDataReply = .error d ∧
      (Execute resultEnv sampleCommand 0 3600 (replying (.ok boomBadDataReply)) ()).1 =
        .fail (Errorf_w "cannot umarshall response from plugin API: " d) ∧
      (Errorf_w "cannot umarshall response from plugin API: " d).Unwrap = some d ∧
      (Errorf_w "cannot umarshall response from plugin API: " d).Error ≠ "boom" :=
  ⟨.New "data is not a query data response", rfl, rfl, rfl, rfl, by decide⟩

/-- When the reply does not decode, `Execute` returns no result and an error
that wraps the decode error; its message is the text
`cannot umarshall response from plugin API: ` followed by the message of the
decode error. -/
theorem Execute_decode_failure {B R T σ : Type} (env : Env B R T) (c : OutlierCommand B)
    (from_ to_ : T) (tr : Transport B σ) (s : σ) (m : Fields) (reply : B) (d : GoError)
    (hq : env.UnmarshalMap c.query = .ok (some m))
    (ht : ∀ path body, (tr path body s).1 = .ok reply)
    (hr : env.UnmarshalResp reply = .error d) :
    ∃ err : GoError,
      (Execute env c from_ to_ tr s).1 = .fail err ∧
      err.Unwrap = some d ∧
      err.Error = "cannot umarshall response from plugin API: " ++ d.Error := by
  refine ⟨Errorf_w "cannot umarshall response from plugin API: " d, ?_, rfl, rfl⟩
  rw [Execute_of_reply env c from_ to_ tr s m reply hq ht, hr]

/-- C4 at malformed bytes.  The message `Execute` returns is
`cannot umarshall response from plugin API: unexpected end of JSON input`; it
is not the text `cannot unmarshal response from plugin API` followed by the
decode error's message, with or without the colon. -/
theorem Execute_decode_failure_text :
    ∃ err : GoError,
      (Execute treeEnv sampleCommand 0 3600 (replying (.ok none)) ()).1 = .fail err ∧
      err.Unwrap = some (.New "unexpected end of JSON input") ∧
      err.Error = "cannot umarshall response from plugin API: unexpected end of JSON input" ∧
      err.Error ≠ "cannot unmarshal response from plugin API" ++ "unexpected end of JSON input" ∧
      err.Error ≠
        "cannot unmarshal response from plugin API: " ++ "unexpected end of JSON input" :=
  ⟨.Wrap "cannot umarshall response from plugin API: unexpected end of JSON input"
      (.New "unexpected end of JSON input"), rfl, rfl, rfl, by decide, by decide⟩

/-- C5.  When the transport returns the error `e`, `Execute` returns no result
and `e` itself, and the transport has been called once. -/
theorem Execute_transport_error {B R T σ : Type} (env : Env B R T) (c : OutlierCommand B)
    (from_ to_ : T) (tr : Transport B σ) (s : σ) (m : Fields) (e : GoError)
    (hq : env.UnmarshalMap c.query = .ok (some m))
    (ht : ∀ path body, (tr path body s).1 = .error e) :
    (Execute env c from_ to_ (recording tr) (s, [])).1 = .fail e ∧
    (Execute env c from_ to_ (recording tr) (s, [])).2.2.length = 1 := by
  constructor
  · exact Execute_of_transport_error env c from_ to_ (recording tr) (s, []) m e hq
      (fun path body => ht path body)
  · rw [Execute_recording_calls env c from_ to_ tr s m hq]
    rfl

theorem Execute_transport_error_witness :
    treeEnv.UnmarshalMap sampleCommand.query = .ok (some sampleQuery) ∧
    (∀ path body, (refusing path body ()).1 = .error (.New "connection refused")) ∧
    (Execute treeEnv sampleCommand 0 3600 (recording refusing) ((), [])).1 =
        .fail (.New "connection refused") ∧
    (Execute treeEnv sampleCommand 0 3600 (recording refusing) ((), [])).2.2.length = 1 :=
  ⟨rfl, fun _ _ => rfl,
    Execute_transport_error treeEnv sampleCommand 0 3600 refusing () sampleQuery
      (.New "connection refused") rfl (fun _ _ => rfl)⟩

/-- C6.  When the reply decodes to an envelope whose `error` field is empty,
`Execute` returns the decoded `data` field and no error, whatever the `status`
field holds. -/
theorem Execute_success_data {B R T σ : Type} (env : Env B R T) (c : OutlierCommand B)
    (from_ to_ : T) (tr : Transport B σ) (s : σ) (m : Fields) (reply : B) (resp : Resp R)
    (hq : env.UnmarshalMap c.query = .ok (some m))
    (ht : ∀ path body, (tr path body s).1 = .ok reply)
    (hr : env.UnmarshalResp reply = .ok resp)
    (he : resp.Error = "") :
    (Execute env c from_ to_ tr s).1 = .ok resp.Data := by
  rw [Execute_of_reply env c from_ to_ tr s m reply hq ht, hr]
  simp only
  rw [if_neg]
  rw [he]
  decide

theorem Execute_success_data_witness :
    treeEnv.UnmarshalMap sampleCommand.query = .ok (some sampleQuery) ∧
    (∀ path body, (replying (.ok errorStatusReply) path body ()).1 = .ok errorStatusReply) ∧
    treeEnv.UnmarshalResp errorStatusReply =
      .ok { Status := "error", Data := some (.obj [("k", .str "v")]), Error := "" } ∧
    (Execute treeEnv sampleCommand 0 3600 (replying (.ok errorStatusReply)) ()).1 =
      .ok (some (.obj [("k", .str "v")])) :=
  ⟨rfl, fun _ _ => rfl, rfl,
    Execute_success_data treeEnv sampleCommand 0 3600 (replying (.ok errorStatusReply))
      () sampleQuery errorStatusReply
      { Status := "error", Data := some (.obj [("k", .str "v")]), Error := "" }
      rfl (fun _ _ => rfl) rfl rfl⟩

end Ml

namespace Ml

/-! ## The builder: claims C9, C10 -/

theorem Any_ValueType_object (a : Any) (h : a.ValueType = .ObjectValue) :
    ∃ kvs : Fields, a = .node (.obj kvs) := by
  cases a with
  | invalid => simp [Any.ValueType] at h
  | node j =>
    cases j with
    | obj kvs => exact ⟨kvs, rfl⟩
    | null => simp [Any.ValueType] at h
    | bool b => simp [Any.ValueType] at h
    | num n => simp [Any.ValueType] at h
    | str s => simp [Any.ValueType] at h
    | arr xs => simp [Any.ValueType] at h

theorem unmarshalOutlierCommand_ok_inv {B R T : Type} (env : Env B R T) (q : Any)
    (u : String) (c : OutlierCommand B) (hb : unmarshalOutlierCommand env q u = .ok c) :
    ∃ cfg : Fields,
      q.Get "config" = .node (.obj cfg) ∧
      c.query = env.Marshal (.obj cfg) ∧
      c.datasourceUID = ((q.Get "config").Get "datasource_uid").ToString ∧
      c.appURL = u := by
  simp only [unmarshalOutlierCommand] at hb
  split at hb
  · exact absurd hb (by simp)
  · split at hb
    · exact absurd hb (by simp)
    · rename_i hcfg
      split at hb
      · exact absurd hb (by simp)
      · have hobj : (q.Get "config").ValueType = .ObjectValue := by
          by_contra hne
          exact hcfg hne
        obtain ⟨cfg, hcfgq⟩ := Any_ValueType_object _ hobj
        refine ⟨cfg, hcfgq, ?_, ?_, ?_⟩
        · injection hb with hb
          rw [← hb, hcfgq]
          rfl
        · injection hb with hb
          rw [← hb]
        · injection hb with hb
          rw [← hb]

end Ml

namespace Ml

/-- C9 at a numeric `datasource_uid`.  The document
`{"config":{"datasource_uid":123}}` is accepted, and `DatasourceUID()` of the
built command is the string `123`, which is not the number that
`config.datasource_uid` holds. -/
theorem build_uid_of_number :
    ∃ c : OutlierCommand (Option Json),
      unmarshalOutlierCommand treeEnv numericUidDocument "https://x" = .ok c ∧
      (numericUidDocument.Get "config").Get "datasource_uid" =
        .node (.num (Number.ofInt 123)) ∧
      c.DatasourceUID = "123" ∧
      Json.str c.DatasourceUID ≠ .num (Number.ofInt 123) :=
  ⟨{ query := some (.obj [("datasource_uid", .num (Number.ofInt 123))]),
     datasourceUID := "123", appURL := "https://x", interval := 60000000000 },
    rfl, rfl, rfl, by simp⟩

/-- C10.  For a query document in which `intervalMs` is absent or `null` and
`config` is an object whose `datasource_uid` is a non-empty string,
`unmarshalOutlierCommand` returns a command and no error, and the interval of
that command is `defaultInterval`. -/
theorem unmarshalOutlierCommand_default_interval {B R T : Type} (env : Env B R T)
    (doc cfg : Fields) (ds u : String)
    (hi : mapIndex doc "intervalMs" = none ∨ mapIndex doc "intervalMs" = some .null)
    (hc : mapIndex doc "config" = some (.obj cfg))
    (hd : mapIndex cfg "datasource_uid" = some (.str ds))
    (hne : ds ≠ "") :
    ∃ c : OutlierCommand B,
      unmarshalOutlierCommand env (.node (.obj doc)) u = .ok c ∧
      c.interval = env.defaultInterval ∧
      c.query = env.Marshal (.obj cfg) ∧ c.datasourceUID = ds ∧ c.appURL = u := by
  have hlen : ¬ len ds = 0 := fun h => hne ((len_eq_zero_iff ds).1 h)
  refine ⟨{ query := env.Marshal (.obj cfg), datasourceUID := ds, appURL := u,
            interval := env.defaultInterval }, ?_, rfl, rfl, rfl, rfl⟩
  rcases hi with hi | hi
  · simp [unmarshalOutlierCommand, Any.Get, hi, hc, hd, Any.ValueType, Any.ToString,
      Any.GetInterface, hlen]
  · simp [unmarshalOutlierCommand, Any.Get, hi, hc, hd, Any.ValueType, Any.ToString,
      Any.GetInterface, hlen]

theorem unmarshalOutlierCommand_default_interval_witness :
    (mapIndex [("config", Json.obj [("datasource_uid", .str "abc")])] "intervalMs" = none ∨
      mapIndex [("config", Json.obj [("datasource_uid", .str "abc")])] "intervalMs" =
        some .null) ∧
    mapIndex [("config", Json.obj [("datasource_uid", .str "abc")])] "config" =
      some (.obj [("datasource_uid", .str "abc")]) ∧
    mapIndex [("datasource_uid", Json.str "abc")] "datasource_uid" = some (.str "abc") ∧
    "abc" ≠ "" ∧
    ∃ c : OutlierCommand (Option Json),
      unmarshalOutlierCommand treeEnv
        (.node (.obj [("config", Json.obj [("datasource_uid", .str "abc")])])) "https://x" =
          .ok c ∧
      c.interval = treeEnv.defaultInterval ∧
      c.query = treeEnv.Marshal (.obj [("datasource_uid", .str "abc")]) ∧
      c.datasourceUID = "abc" ∧ c.appURL = "https://x" :=
  ⟨Or.inl rfl, rfl, rfl, by decide,
    unmarshalOutlierCommand_default_interval treeEnv
      [("config", Json.obj [("datasource_uid", .str "abc")])]
      [("datasource_uid", .str "abc")] "abc" "https://x" (Or.inl rfl) rfl rfl (by decide)⟩

end Ml

namespace Ml

/-! ## The builder's rules -/

/-- The integer that the sign and the integer digits of a number spell. -/
def Number.intPart (n : Number) : Int :=
  if n.neg then -(n.digits : Int) else (n.digits : Int)

/-- The first rule of the builder fails: `intervalMs` is there and is neither
`null` nor a number. -/
def intervalRuleFails (q : Any) : Bool :=
  match (q.Get "intervalMs").ValueType with
  | .NilValue => false
  | .InvalidValue => false
  | .NumberValue => false
  | _ => true

/-- The second rule of the builder fails: `config` is not an object. -/
def configRuleFails (q : Any) : Bool :=
  decide ((q.Get "config").ValueType ≠ .ObjectValue)

/-- The third rule of the builder fails: `datasource_uid`, read as a string
from `config`, is empty. -/
def uidRuleFails (q : Any) : Bool :=
  decide (len ((q.Get "config").Get "datasource_uid").ToString = 0)

/-- The three rules in the order the specification lists them, each with the
message of its failure. -/
def buildRules (q : Any) : List (Bool × String) :=
  [(intervalRuleFails q, "field `intervalMs` is expected to be a number"),
   (configRuleFails q, "field `config` is required and should be object"),
   (uidRuleFails q, "field `config.datasource_uid` is required and should be string")]

/-- The message of the first rule of a list that fails, if one does. -/
def firstViolated : List (Bool × String) → Option String
  | [] => none
  | (failed, message) :: rest => if failed then some message else firstViolated rest

/-- A query document whose `intervalMs` is a string and which has no `config`. -/
def twoFaultsDocument : Any :=
  .node (.obj [("intervalMs", .str "5000")])

/-- A query document with a number as `intervalMs` and no `config`. -/
def configMissingDocument : Any :=
  .node (.obj [("intervalMs", .num (Number.ofInt 5000))])

/-- A query document whose `datasource_uid` is the empty string. -/
def emptyUidDocument : Any :=
  .node (.obj [("config", .obj [("datasource_uid", .str "")])])

/-- A query document whose `intervalMs` is the integer 5000 written `5e3`. -/
def exponentIntervalDocument : Any :=
  .node (.obj [
    ("intervalMs", .num { neg := false, digits := 5, rest := "e3" }),
    ("config", .obj [("datasource_uid", .str "abc")])])

/-- A reply with a success status and nothing else. -/
def plainReply : Option Json :=
  some (.obj [("status", .str "success")])

/-- A query document whose `intervalMs` is the number 1.5. -/
def fractionalIntervalDocument : Any :=
  .node (.obj [
    ("intervalMs", .num { neg := false, digits := 1, rest := ".5" }),
    ("config", .obj [("datasource_uid", .str "abc")])])

/-- A query document whose `datasource_uid` is `true`. -/
def boolUidDocument : Any :=
  .node (.obj [("config", .obj [("datasource_uid", .bool true)])])

end Ml

namespace Ml

/-! ## The builder's failures: claims C12, C13, C15 -/

/-- C12.  When `intervalMs` is present with a value that is neither `null` nor
a number, `unmarshalOutlierCommand` returns no command and the error
"field `intervalMs` is expected to be a number", whatever else the document
holds. -/
theorem unmarshalOutlierCommand_interval_type {B R T : Type} (env : Env B R T)
    (doc : Fields) (v : Json) (u : String)
    (hv : mapIndex doc "intervalMs" = some v)
    (hnull : v ≠ .null) (hnum : ∀ n, v ≠ .num n) :
    (unmarshalOutlierCommand env (.node (.obj doc)) u : Except GoError (OutlierCommand B)) =
      .error (.New "field `intervalMs` is expected to be a number") := by
  cases v with
  | null => exact absurd rfl hnull
  | num n => exact absurd rfl (hnum n)
  | bool b => simp [unmarshalOutlierCommand, Any.Get, hv, Any.ValueType]
  | str s => simp [unmarshalOutlierCommand, Any.Get, hv, Any.ValueType]
  | arr xs => simp [unmarshalOutlierCommand, Any.Get, hv, Any.ValueType]
  | obj kvs => simp [unmarshalOutlierCommand, Any.Get, hv, Any.ValueType]

theorem unmarshalOutlierCommand_interval_type_witness :
    mapIndex [("intervalMs", Json.str "5000"),
      ("config", .obj [("datasource_uid", .str "abc")])] "intervalMs" = some (.str "5000") ∧
    Json.str "5000" ≠ .null ∧ (∀ n, Json.str "5000" ≠ .num n) ∧
    (unmarshalOutlierCommand treeEnv
        (.node (.obj [("intervalMs", Json.str "5000"),
          ("config", .obj [("datasource_uid", .str "abc")])])) "https://x" :
        Except GoError (OutlierCommand (Option Json))) =
      .error (.New "field `intervalMs` is expected to be a number") :=
  ⟨rfl, by simp, by simp,
    unmarshalOutlierCommand_interval_type treeEnv
      [("intervalMs", Json.str "5000"), ("config", .obj [("datasource_uid", .str "abc")])]
      (.str "5000") "https://x" rfl (by simp) (by simp)⟩

theorem unmarshalOutlierCommand_of_interval_ok {B R T : Type} (env : Env B R T) (q : Any)
    (u : String)
    (hi : (q.Get "intervalMs").ValueType = .NilValue ∨
      (q.Get "intervalMs").ValueType = .InvalidValue ∨
      (q.Get "intervalMs").ValueType = .NumberValue) :
    (unmarshalOutlierCommand env q u : Except GoError (OutlierCommand B)) =
      if (q.Get "config").ValueType ≠ .ObjectValue then
        .error (.New "field `config` is required and should be object")
      else if len ((q.Get "config").Get "datasource_uid").ToString = 0 then
        .error (.New "field `config.datasource_uid` is required and should be string")
      else
        .ok { query := env.Marshal (q.Get "config").GetInterface,
              datasourceUID := ((q.Get "config").Get "datasource_uid").ToString,
              interval :=
                if (q.Get "intervalMs").ValueType = .NumberValue then
                  wrapInt64 ((q.Get "intervalMs").ToInt64 env.overflow * Millisecond)
                else env.defaultInterval,
              appURL := u } := by
  rcases hi with hi | hi | hi <;> simp [unmarshalOutlierCommand, hi]

theorem unmarshalOutlierCommand_of_interval_bad {B R T : Type} (env : Env B R T) (q : Any)
    (u : String) (hi : intervalRuleFails q = true) :
    (unmarshalOutlierCommand env q u : Except GoError (OutlierCommand B)) =
      .error (.New "field `intervalMs` is expected to be a number") := by
  unfold intervalRuleFails at hi
  simp only [unmarshalOutlierCommand]
  cases h : (q.Get "intervalMs").ValueType <;> simp [h] at hi ⊢

/-- C13.  Let `intervalMs` be absent, `null` or a number.  When `config` is
absent or is not an object, `unmarshalOutlierCommand` returns no command and
the error "field `config` is required and should be object".  When `config` is
an object whose `datasource_uid` is absent, `null` or the empty string, it
returns no command and the error
"field `config.datasource_uid` is required and should be string". -/
theorem unmarshalOutlierCommand_config_errors {B R T : Type} (env : Env B R T) (q : Any)
    (u : String)
    (hi : (q.Get "intervalMs").ValueType = .NilValue ∨
      (q.Get "intervalMs").ValueType = .InvalidValue ∨
      (q.Get "intervalMs").ValueType = .NumberValue) :
    ((q.Get "config").ValueType ≠ .ObjectValue →
      (unmarshalOutlierCommand env q u : Except GoError (OutlierCommand B)) =
        .error (.New "field `config` is required and should be object")) ∧
    (∀ cfg : Fields, q.Get "config" = .node (.obj cfg) →
      (mapIndex cfg "datasource_uid" = none ∨
        mapIndex cfg "datasource_uid" = some .null ∨
        mapIndex cfg "datasource_uid" = some (.str "")) →
      (unmarshalOutlierCommand env q u : Except GoError (OutlierCommand B)) =
        .error (.New "field `config.datasource_uid` is required and should be string")) := by
  rw [unmarshalOutlierCommand_of_interval_ok env q u hi]
  constructor
  · intro hc
    rw [if_pos hc]
  · intro cfg hc hd
    rw [hc]
    rw [if_neg (by simp [Any.ValueType])]
    have hempty : len ((Any.node (.obj cfg)).Get "datasource_uid").ToString = 0 := by
      rcases hd with hd | hd | hd <;> simp [Any.Get, hd, Any.ToString] <;> rfl
    rw [if_pos hempty]

theorem unmarshalOutlierCommand_config_errors_witness :
    ((configMissingDocument.Get "intervalMs").ValueType = .NilValue ∨
      (configMissingDocument.Get "intervalMs").ValueType = .InvalidValue ∨
      (configMissingDocument.Get "intervalMs").ValueType = .NumberValue) ∧
    (configMissingDocument.Get "config").ValueType ≠ .ObjectValue ∧
    (unmarshalOutlierCommand treeEnv configMissingDocument "https://x" :
        Except GoError (OutlierCommand (Option Json))) =
      .error (.New "field `config` is required and should be object") ∧
    ((emptyUidDocument.Get "intervalMs").ValueType = .NilValue ∨
      (emptyUidDocument.Get "intervalMs").ValueType = .InvalidValue ∨
      (emptyUidDocument.Get "intervalMs").ValueType = .NumberValue) ∧
    emptyUidDocument.Get "config" = .node (.obj [("datasource_uid", .str "")]) ∧
    mapIndex [("datasource_uid", Json.str "")] "datasource_uid" = some (.str "") ∧
    (unmarshalOutlierCommand treeEnv emptyUidDocument "https://x" :
        Except GoError (OutlierCommand (Option Json))) =
      .error (.New "field `config.datasource_uid` is required and should be string") :=
  ⟨Or.inr (Or.inr rfl), by decide,
    (unmarshalOutlierCommand_config_errors treeEnv configMissingDocument "https://x"
      (Or.inr (Or.inr rfl))).1 (by decide),
    Or.inr (Or.inl rfl), rfl, rfl,
    (unmarshalOutlierCommand_config_errors treeEnv emptyUidDocument "https://x"
      (Or.inr (Or.inl rfl))).2 [("datasource_uid", .str "")] rfl (Or.inr (Or.inr rfl))⟩

/-- C15.  The error of `unmarshalOutlierCommand` is the message of the first
rule that fails, the rules taken in the order `intervalMs`, `config`,
`config.datasource_uid`; a command is returned exactly when none fails.  A
string `intervalMs` together with a missing `config` gives the message of
`intervalMs`. -/
theorem unmarshalOutlierCommand_first_rule {B R T : Type} (env : Env B R T) (q : Any)
    (u : String) :
    (match firstViolated (buildRules q) with
      | some message =>
        (unmarshalOutlierCommand env q u : Except GoError (OutlierCommand B)) =
          .error (.New message)
      | none =>
        ∃ c : OutlierCommand B, unmarshalOutlierCommand env q u = .ok c) ∧
    firstViolated (buildRules twoFaultsDocument) =
      some "field `intervalMs` is expected to be a number" ∧
    configRuleFails twoFaultsDocument = true := by
  refine ⟨?_, rfl, rfl⟩
  by_cases h1 : intervalRuleFails q = true
  · simp only [buildRules, firstViolated, h1, if_true]
    exact unmarshalOutlierCommand_of_interval_bad env q u h1
  · have hi : (q.Get "intervalMs").ValueType = .NilValue ∨
        (q.Get "intervalMs").ValueType = .InvalidValue ∨
        (q.Get "intervalMs").ValueType = .NumberValue := by
      unfold intervalRuleFails at h1
      cases h : (q.Get "intervalMs").ValueType <;> simp [h] at h1 ⊢
    rw [unmarshalOutlierCommand_of_interval_ok env q u hi]
    simp only [buildRules, firstViolated, h1, configRuleFails, uidRuleFails]
    by_cases h2 : (q.Get "config").ValueType ≠ .ObjectValue
    · simp [h2]
    · by_cases h3 : len ((q.Get "config").Get "datasource_uid").ToString = 0
      · simp [h2, h3]
      · simp [h2, h3]

end Ml

namespace Ml

/-! ## Texts are not empty -/

theorem toDigitsCore_ne_nil (b : Nat) : ∀ (fuel n : Nat) (ds : List Char),
    (ds ≠ [] ∨ 0 < fuel) → Nat.toDigitsCore b fuel n ds ≠ []
  | 0, n, ds, h => by
    rcases h with h | h
    · simpa [Nat.toDigitsCore] using h
    · omega
  | fuel + 1, n, ds, _ => by
    simp only [Nat.toDigitsCore]
    split
    · simp
    · exact toDigitsCore_ne_nil b fuel _ _ (Or.inl (by simp))

theorem toString_nat_length_pos (n : Nat) : 0 < (toString n).length := by
  have h : Nat.toDigits 10 n ≠ [] := toDigitsCore_ne_nil 10 (n + 1) n [] (Or.inr (by omega))
  show 0 < (Nat.repr n).length
  unfold Nat.repr
  simp only [List.asString, String.length]
  exact List.length_pos.2 h

theorem Number_text_length_pos (n : Number) : 0 < n.text.length := by
  have h := toString_nat_length_pos n.digits
  simp only [Number.text, String.length_append]
  omega

theorem Json_text_length_pos (j : Json) : 0 < j.text.length := by
  cases j with
  | null => simp only [Json.text]; decide
  | bool b => cases b <;> simp only [Json.text] <;> decide
  | num n => simpa [Json.text] using Number_text_length_pos n
  | str s =>
    simp only [Json.text, String.length_append]
    have h : "\"".length = 1 := by decide
    omega
  | arr xs =>
    simp only [Json.text, String.length_append]
    have h : "[".length = 1 := by decide
    omega
  | obj kvs =>
    simp only [Json.text, String.length_append]
    have h : "\x7b".length = 1 := by decide
    omega

theorem len_Json_text_ne_zero (j : Json) : len j.text ≠ 0 := by
  intro h
  have h1 := (len_eq_zero_iff _).1 h
  have h2 := Json_text_length_pos j
  rw [h1] at h2
  simp at h2

/-! ## 64-bit arithmetic -/

theorem wrapInt64_of_fits (x : Int) (h1 : -9223372036854775808 ≤ x)
    (h2 : x ≤ 9223372036854775807) : wrapInt64 x = x := by
  unfold wrapInt64
  omega

theorem wrapInt64_fits (x : Int) :
    -9223372036854775808 ≤ wrapInt64 x ∧ wrapInt64 x ≤ 9223372036854775807 := by
  unfold wrapInt64
  omega

theorem tdiv_million_bounds (w : Int) (h1 : -9223372036854775808 ≤ w)
    (h2 : w ≤ 9223372036854775807) :
    -9223372036854 ≤ Int.tdiv w 1000000 ∧ Int.tdiv w 1000000 ≤ 9223372036854 := by
  rcases le_or_lt 0 w with h | h
  · rw [Int.tdiv_eq_ediv h (by decide)]
    omega
  · have hneg : Int.tdiv w 1000000 = -(Int.tdiv (-w) 1000000) := by
      rw [Int.neg_tdiv, neg_neg]
    rw [hneg, Int.tdiv_eq_ediv (by omega) (by decide)]
    omega

theorem Number_ToInt64_ofInt (overflow : Number → Int) (n : Int)
    (h1 : -9223372036854775808 ≤ n) (h2 : n ≤ 9223372036854775807) :
    (Number.ofInt n).ToInt64 overflow = n := by
  unfold Number.ToInt64 Number.ofInt
  by_cases hn : n < 0
  · simp only [hn, decide_True, if_true]
    rw [if_pos (by omega)]
    omega
  · simp only [hn, decide_False]
    rw [if_neg (by simp), if_pos (by omega)]
    omega

theorem Number_ToInt64_of_small (overflow : Number → Int) (n : Number)
    (h : n.digits ≤ 9223372036854) : n.ToInt64 overflow = n.intPart := by
  unfold Number.ToInt64 Number.intPart
  cases hb : n.neg
  · simp only [Bool.false_eq_true, if_false]
    rw [if_pos (by omega)]
  · simp only [if_true]
    rw [if_pos (by omega)]

theorem Number_ofInt_injective (a b : Int) (h : Number.ofInt a = Number.ofInt b) : a = b := by
  unfold Number.ofInt at h
  injection h with hneg hdig _
  have h3 : (a < 0) ↔ (b < 0) := by simpa using hneg
  omega

end Ml

namespace Ml

/-! ## Numbers as intervals, and `datasource_uid`: claims C11, C14, C19 -/

theorem unmarshalOutlierCommand_of_number {B R T : Type} (env : Env B R T)
    (doc cfg : Fields) (n : Number) (ds u : String)
    (hn : mapIndex doc "intervalMs" = some (.num n))
    (hc : mapIndex doc "config" = some (.obj cfg))
    (hd : mapIndex cfg "datasource_uid" = some (.str ds))
    (hne : ds ≠ "") :
    (unmarshalOutlierCommand env (.node (.obj doc)) u : Except GoError (OutlierCommand B)) =
      .ok { query := env.Marshal (.obj cfg), datasourceUID := ds,
            interval := wrapInt64 (n.ToInt64 env.overflow * 1000000), appURL := u } := by
  have hlen : ¬ len ds = 0 := fun h => hne ((len_eq_zero_iff ds).1 h)
  simp [unmarshalOutlierCommand, Any.Get, hn, hc, hd, Any.ValueType, Any.ToString,
    Any.GetInterface, Any.ToInt64, Millisecond, hlen]

/-- C11 at the number 1.5.  The document
`{"intervalMs":1.5,"config":{"datasource_uid":"abc"}}` is accepted and the
interval of the built command is 1000000 nanoseconds, one millisecond, where
1.5 milliseconds are 1500000 nanoseconds. -/
theorem build_fractional_interval :
    ∃ c : OutlierCommand (Option Json),
      unmarshalOutlierCommand treeEnv fractionalIntervalDocument "https://x" = .ok c ∧
      fractionalIntervalDocument.Get "intervalMs" =
        .node (.num { neg := false, digits := 1, rest := ".5" }) ∧
      Number.text { neg := false, digits := 1, rest := ".5" } = "1.5" ∧
      c.interval = 1000000 ∧ c.interval ≠ 1500000 :=
  ⟨{ query := some (.obj [("datasource_uid", .str "abc")]), datasourceUID := "abc",
     appURL := "https://x", interval := 1000000 },
    rfl, rfl, rfl, rfl, by decide⟩

/-- C11, amended.  For a query document whose `intervalMs` is an integer `n`
written in decimal digits, without fraction or exponent, with
`-9223372036854 ≤ n ≤ 9223372036854`, and whose `config` is an object with a
non-empty string `datasource_uid`, `unmarshalOutlierCommand` returns a command
and no error, and the interval of the command is `n` milliseconds. -/
theorem unmarshalOutlierCommand_numeric_interval {B R T : Type} (env : Env B R T)
    (doc cfg : Fields) (n : Int) (ds u : String)
    (hn : mapIndex doc "intervalMs" = some (.num (Number.ofInt n)))
    (hlo : -9223372036854 ≤ n) (hhi : n ≤ 9223372036854)
    (hc : mapIndex doc "config" = some (.obj cfg))
    (hd : mapIndex cfg "datasource_uid" = some (.str ds))
    (hne : ds ≠ "") :
    ∃ c : OutlierCommand B,
      unmarshalOutlierCommand env (.node (.obj doc)) u = .ok c ∧
      c.interval = n * Millisecond := by
  refine ⟨_, unmarshalOutlierCommand_of_number env doc cfg (Number.ofInt n) ds u hn hc hd hne,
    ?_⟩
  show wrapInt64 ((Number.ofInt n).ToInt64 env.overflow * 1000000) = n * 1000000
  rw [Number_ToInt64_ofInt env.overflow n (by omega) (by omega)]
  exact wrapInt64_of_fits _ (by omega) (by omega)

theorem unmarshalOutlierCommand_numeric_interval_witness :
    mapIndex [("config", Json.obj [("datasource_uid", .str "abc")]),
      ("intervalMs", .num (Number.ofInt (-5000)))] "intervalMs" =
        some (.num (Number.ofInt (-5000))) ∧
    (-9223372036854 : Int) ≤ -5000 ∧ (-5000 : Int) ≤ 9223372036854 ∧
    mapIndex [("config", Json.obj [("datasource_uid", .str "abc")]),
      ("intervalMs", .num (Number.ofInt (-5000)))] "config" =
        some (.obj [("datasource_uid", .str "abc")]) ∧
    mapIndex [("datasource_uid", Json.str "abc")] "datasource_uid" = some (.str "abc") ∧
    "abc" ≠ "" ∧
    ∃ c : OutlierCommand (Option Json),
      unmarshalOutlierCommand treeEnv
        (.node (.obj [("config", Json.obj [("datasource_uid", .str "abc")]),
          ("intervalMs", .num (Number.ofInt (-5000)))])) "https://x" = .ok c ∧
      c.interval = -5000 * Millisecond :=
  ⟨rfl, by decide, by decide, rfl, rfl, by decide,
    unmarshalOutlierCommand_numeric_interval treeEnv
      [("config", Json.obj [("datasource_uid", .str "abc")]),
        ("intervalMs", .num (Number.ofInt (-5000)))]
      [("datasource_uid", .str "abc")] (-5000) "abc" "https://x"
      rfl (by decide) (by decide) rfl rfl (by decide)⟩

/-- C14 on the code.  When `intervalMs` passes its check and `config` is an
object whose `datasource_uid` is a number, a boolean, an array or an object,
`unmarshalOutlierCommand` does not fail: it returns a command whose
`DatasourceUID()` is the text of that value, which is not empty. -/
theorem unmarshalOutlierCommand_accepts_other_uid {B R T : Type} (env : Env B R T)
    (q : Any) (u : String) (cfg : Fields) (v : Json)
    (hi : (q.Get "intervalMs").ValueType = .NilValue ∨
      (q.Get "intervalMs").ValueType = .InvalidValue ∨
      (q.Get "intervalMs").ValueType = .NumberValue)
    (hc : q.Get "config" = .node (.obj cfg))
    (hd : mapIndex cfg "datasource_uid" = some v)
    (hnull : v ≠ .null) (hstr : ∀ s, v ≠ .str s) :
    ∃ c : OutlierCommand B,
      unmarshalOutlierCommand env q u = .ok c ∧
      c.DatasourceUID = v.text ∧ c.DatasourceUID ≠ "" := by
  have hts : ((q.Get "config").Get "datasource_uid").ToString = v.text := by
    rw [hc]
    simp only [Any.Get, hd]
    cases v with
    | null => exact absurd rfl hnull
    | str s => exact absurd rfl (hstr s)
    | bool b => rfl
    | num n => rfl
    | arr xs => rfl
    | obj kvs => rfl
  have hlen : ¬ len ((q.Get "config").Get "datasource_uid").ToString = 0 := by
    rw [hts]
    exact len_Json_text_ne_zero v
  rw [unmarshalOutlierCommand_of_interval_ok env q u hi]
  rw [hc] at hts hlen ⊢
  rw [if_neg (by simp [Any.ValueType]), if_neg hlen]
  refine ⟨_, rfl, hts, ?_⟩
  intro h
  apply hlen
  rw [(len_eq_zero_iff _).2]
  exact h

theorem unmarshalOutlierCommand_accepts_other_uid_witness :
    ((boolUidDocument.Get "intervalMs").ValueType = .NilValue ∨
      (boolUidDocument.Get "intervalMs").ValueType = .InvalidValue ∨
      (boolUidDocument.Get "intervalMs").ValueType = .NumberValue) ∧
    boolUidDocument.Get "config" = .node (.obj [("datasource_uid", .bool true)]) ∧
    mapIndex [("datasource_uid", Json.bool true)] "datasource_uid" = some (.bool true) ∧
    Json.bool true ≠ .null ∧ (∀ s, Json.bool true ≠ .str s) ∧
    ∃ c : OutlierCommand (Option Json),
      unmarshalOutlierCommand treeEnv boolUidDocument "https://x" = .ok c ∧
      c.DatasourceUID = (Json.bool true).text ∧ c.DatasourceUID ≠ "" :=
  ⟨Or.inr (Or.inl rfl), rfl, rfl, by simp, by simp,
    unmarshalOutlierCommand_accepts_other_uid treeEnv boolUidDocument "https://x"
      [("datasource_uid", .bool true)] (.bool true) (Or.inr (Or.inl rfl)) rfl rfl
      (by simp) (by simp)⟩

end Ml

namespace Ml

/-- Let a query document have as `intervalMs` the integer `n` written in
decimal digits and a `config` object with a non-empty string `datasource_uid`,
and let the stored query of the built command decode to a map.  The builder
returns a command, and `Execute` on it sends `start_end_attributes.interval`
equal to some integer `k`.  For `-9223372036854 ≤ n ≤ 9223372036854` the
interval of the command is `n` million nanoseconds and `k = n`.  For every
other `n`, `k ≠ n`; and when such an `n` is an `int64`, the interval is
`n * 1000000` reduced modulo `2^64`, which is not `n * 1000000`. -/
theorem interval_survives_in_range {B R T σ : Type} (env : Env B R T)
    (doc cfg m : Fields) (n : Int) (ds u : String) (from_ to_ : T) (tr : Transport B σ) (s : σ)
    (hm : env.UnmarshalMap (env.Marshal (.obj cfg)) = .ok (some m))
    (hn : mapIndex doc "intervalMs" = some (.num (Number.ofInt n)))
    (hc : mapIndex doc "config" = some (.obj cfg))
    (hd : mapIndex cfg "datasource_uid" = some (.str ds))
    (hne : ds ≠ "") :
    ∃ (c : OutlierCommand B) (A se : Fields) (k : Int),
      unmarshalOutlierCommand env (.node (.obj doc)) u = .ok c ∧
      (Execute env c from_ to_ (recording tr) (s, [])).2.2 =
        [("/proxy/api/v1/outlier", env.Marshal (envelope A))] ∧
      mapIndex A "start_end_attributes" = some (.obj se) ∧
      mapIndex se "interval" = some (.num (Number.ofInt k)) ∧
      ((-9223372036854 ≤ n ∧ n ≤ 9223372036854) →
        c.interval = n * 1000000 ∧ k = n) ∧
      (¬ (-9223372036854 ≤ n ∧ n ≤ 9223372036854) →
        k ≠ n ∧
        mapIndex se "interval" ≠ some (.num (Number.ofInt n)) ∧
        ((-9223372036854775808 ≤ n ∧ n ≤ 9223372036854775807) →
          c.interval = wrapInt64 (n * 1000000) ∧ c.interval ≠ n * 1000000)) := by
  have hb := unmarshalOutlierCommand_of_number env doc cfg (Number.ofInt n) ds u hn hc hd hne
  generalize hw : wrapInt64 ((Number.ofInt n).ToInt64 env.overflow * 1000000) = w at hb
  have hfit := wrapInt64_fits ((Number.ofInt n).ToInt64 env.overflow * 1000000)
  rw [hw] at hfit
  have hk := tdiv_million_bounds w hfit.1 hfit.2
  refine ⟨_, _, [("start", .str (env.Format from_)), ("end", .str (env.Format to_)),
      ("interval", .num (Number.ofInt (Int.tdiv w 1000000)))], Int.tdiv w 1000000, hb,
    Execute_recording_calls env _ from_ to_ tr s m hm, ?_, ?_, ?_, ?_⟩
  · rw [mapIndex_mapAssign_ne _ _ _ _ (by decide), mapIndex_mapAssign_self]
  · simp [mapIndex]
  · intro hin
    have h64 : (Number.ofInt n).ToInt64 env.overflow = n :=
      Number_ToInt64_ofInt env.overflow n (by omega) (by omega)
    have hwn : w = n * 1000000 := by
      rw [← hw, h64]
      exact wrapInt64_of_fits _ (by omega) (by omega)
    refine ⟨hwn, ?_⟩
    rw [hwn]
    exact Int.mul_tdiv_cancel n (by decide)
  · intro hout
    have hkn : Int.tdiv w 1000000 ≠ n := by
      intro h
      apply hout
      rw [← h]
      exact hk
    refine ⟨hkn, ?_, ?_⟩
    · intro h
      simp only [mapIndex, if_true] at h
      simp only [show ¬ ("start" = "interval") by decide, show ¬ ("end" = "interval") by decide,
        if_false, Option.some.injEq, Json.num.injEq] at h
      exact hkn (Number_ofInt_injective _ _ h)
    · intro h64
      have hto : (Number.ofInt n).ToInt64 env.overflow = n :=
        Number_ToInt64_ofInt env.overflow n h64.1 h64.2
      rw [hto] at hw
      refine ⟨hw.symm, ?_⟩
      show w ≠ n * 1000000
      intro h
      apply hout
      rw [h] at hfit
      omega

/-- C19 at the integer 5000 written `5e3`.  The document
`{"intervalMs":5e3,"config":{"datasource_uid":"abc"}}` is accepted, the
interval of the built command is 5000000 nanoseconds, five milliseconds, and
`Execute` on it sends `start_end_attributes.interval` equal to 5, where the
integer 5000 lies within `-9223372036854 ≤ n ≤ 9223372036854`. -/
theorem build_exponent_interval :
    ∃ c : OutlierCommand (Option Json),
      unmarshalOutlierCommand treeEnv exponentIntervalDocument "https://x" = .ok c ∧
      exponentIntervalDocument.Get "intervalMs" =
        .node (.num { neg := false, digits := 5, rest := "e3" }) ∧
      Number.text { neg := false, digits := 5, rest := "e3" } = "5e3" ∧
      c.interval = 5000000 ∧
      (Execute treeEnv c 0 3600 (recording (replying (.ok plainReply))) ((), [])).2.2 =
        [("/proxy/api/v1/outlier",
          treeEnv.Marshal (envelope [
            ("datasource_uid", .str "abc"),
            ("start_end_attributes", .obj [
              ("start", .str "0"), ("end", .str "3600"),
              ("interval", .num (Number.ofInt 5))]),
            ("grafana_url", .str "https://x")]))] ∧
      Number.ofInt 5 ≠ Number.ofInt 5000 :=
  ⟨{ query := some (.obj [("datasource_uid", .str "abc")]), datasourceUID := "abc",
     appURL := "https://x", interval := 5000000 },
    rfl, rfl, rfl, rfl, rfl, by decide⟩

end Ml

/-!
# The allowed cookies of a data source (`pkg/services/datasources`)

A shallow embedding of the method `DataSource.AllowedCookies` of `models.go`.
The method reads the JSON data of the data source through three methods of
`simplejson.Json`; they are a parameter of the embedding, so that what is
proved of the method's own logic holds for every implementation of them.
-/

namespace Datasources

open Ml

/-- The constant `MO_EXACT_MATCH`. -/
def MO_EXACT_MATCH : String := "exact_match"

/-- The constant `MO_REGEX_MATCH`. -/
def MO_REGEX_MATCH : String := "regex_match"

/-- The methods of `simplejson.Json` that `AllowedCookies` calls, over the type
`J` of the values a `*simplejson.Json` points to.  `Get` returns a pointer,
`none` being `nil`.  A `[]string` is a list; the `nil` slice and the empty
slice are both the empty list. -/
structure SimpleJson (J : Type) where
  Get : J → String → Option J
  MustString : J → String
  MustStringArray : J → List String

/-- The struct `AllowedCookies`. -/
structure AllowedCookies where
  MatchOption : String
  MatchPattern : String
  KeepCookies : List String
deriving DecidableEq, Repr

/-- The struct `DataSource`, with the fields the tests set; `AllowedCookies`
reads `JsonData` only, a pointer that may be `nil`. -/
structure DataSource (J : Type) where
  ID : Int
  UID : String
  JsonData : Option J

/-- The method `DataSource.AllowedCookies`. -/
def DataSource.AllowedCookies {J : Type} (sj : SimpleJson J) (ds : DataSource J)
    (isFlagAllowedCookieRegexPattern : Bool) : Datasources.AllowedCookies :=
  let ac : Datasources.AllowedCookies :=
    { MatchOption := MO_EXACT_MATCH, MatchPattern := "", KeepCookies := [] }
  match ds.JsonData with
  | none => ac
  | some jsonData =>
    let aco := sj.Get jsonData "allowedCookieOption"
    let acp := sj.Get jsonData "allowedCookiePattern"
    let kc := sj.Get jsonData "keepCookies"
    let ac : Datasources.AllowedCookies :=
      match kc with
      | some kc => { ac with KeepCookies := sj.MustStringArray kc }
      | none => ac
    if isFlagAllowedCookieRegexPattern then
      let ac : Datasources.AllowedCookies :=
        match acp with
        | some acp => { ac with MatchPattern := sj.MustString acp }
        | none => ac
      match aco with
      | some aco =>
        let acoStr := sj.MustString aco
        if acoStr = MO_EXACT_MATCH ∨ acoStr = MO_REGEX_MATCH then
          { ac with MatchOption := acoStr }
        else ac
      | none => ac
    else
      { ac with MatchPattern := "", MatchOption := MO_EXACT_MATCH }

/-- The string that `StringArray` reads from an element of an array: a string
as it is, and the empty string for `nil` (here `null`). -/
def elementText : Json → String
  | .str s => s
  | _ => ""

/-- The strings of a list of values, as `StringArray` reads them: a string is
taken as it is, `nil` (here `null`) as the empty string, and a value of any
other type makes the whole list unreadable. -/
def stringsOf : List Json → Option (List String)
  | [] => some []
  | .str s :: rest =>
    match stringsOf rest with
    | some ss => some (s :: ss)
    | none => none
  | .null :: rest =>
    match stringsOf rest with
    | some ss => some ("" :: ss)
    | none => none
  | _ :: _ => none

/-- Modelled from the spec: the package `pkg/components/simplejson` is not
among the source files, and the specification leaves the cookie settings to a
collaborator.  The three methods are taken as the code of `AllowedCookies`,
its comment ("returns a list of allowed cookies, otherwise an empty list") and
its tests use them.  `Get` gives the value stored under a key of an object and
a wrapper of `nil` (here `null`) when there is none; it never gives the `nil`
pointer (the test without `keepCookies` expects the `nil` slice, not the
initial empty one).  `MustString` gives a string value and the empty string
for anything else.  `MustStringArray` gives the strings of an array whose
elements are strings or `nil`, a `nil` element read as the empty string
(`StringArray` appends an empty string for it), and the `nil` slice for
anything else. -/
def treeJson : SimpleJson Json where
  Get := fun j key =>
    match j with
    | .obj kvs =>
      match mapIndex kvs key with
      | some v => some v
      | none => some .null
    | _ => some .null
  MustString := fun j =>
    match j with
    | .str s => s
    | _ => ""
  MustStringArray := fun j =>
    match j with
    | .arr xs =>
      match stringsOf xs with
      | some ss => ss
      | none => []
    | _ => []

/-- The value that `treeJson.Get` wraps: the one stored under the key of an
object, `null` otherwise. -/
def treeValue (jsonData : Json) (key : String) : Json :=
  match jsonData with
  | .obj kvs =>
    match mapIndex kvs key with
    | some v => v
    | none => .null
  | _ => .null

/-- The JSON data `jsonData` holds the string `s` under `key`. -/
def storedString (jsonData : Json) (key s : String) : Prop :=
  ∃ kvs : Fields, jsonData = .obj kvs ∧ mapIndex kvs key = some (.str s)

/-- The JSON data `jsonData` holds the array of the strings `ss` under `key`. -/
def storedStrings (jsonData : Json) (key : String) (ss : List String) : Prop :=
  ∃ kvs : Fields, jsonData = .obj kvs ∧ mapIndex kvs key = some (.arr (ss.map Json.str))

/-- The JSON data `jsonData` holds the array `xs` under `key`. -/
def storedArray (jsonData : Json) (key : String) (xs : List Json) : Prop :=
  ∃ kvs : Fields, jsonData = .obj kvs ∧ mapIndex kvs key = some (.arr xs)

/-- JSON data whose `keepCookies` is the array `["a", null, "b"]`. -/
def nullCookieJsonData : Json :=
  .obj [("keepCookies", .arr [.str "a", .null, .str "b"])]

/-- The JSON data of the test "regex pattern matching option provided". -/
def regexJsonData : Json :=
  .obj [("keepCookies", .arr [.str "cookie2"]),
        ("allowedCookieOption", .str "regex_match"),
        ("allowedCookiePattern", .str ".*")]

end Datasources

namespace Datasources

open Ml

/-! ## Claims C16, C17, C18 -/

/-- C16.  With the flag off, `AllowedCookies` returns the match option
`exact_match` and the empty match pattern, for every data source and whatever
the methods of `simplejson.Json` return. -/
theorem AllowedCookies_flag_off {J : Type} (sj : SimpleJson J) (ds : DataSource J) :
    (ds.AllowedCookies sj false).MatchOption = "exact_match" ∧
    (ds.AllowedCookies sj false).MatchPattern = "" := by
  obtain ⟨i, uid, jd⟩ := ds
  cases jd with
  | none => exact ⟨rfl, rfl⟩
  | some jd => exact ⟨rfl, rfl⟩

theorem AllowedCookies_option_one_of_two {J : Type} (sj : SimpleJson J) (ds : DataSource J)
    (flag : Bool) :
    (ds.AllowedCookies sj flag).MatchOption = "exact_match" ∨
    (ds.AllowedCookies sj flag).MatchOption = "regex_match" := by
  obtain ⟨i, uid, jd⟩ := ds
  cases jd with
  | none => exact Or.inl rfl
  | some jd =>
    cases flag with
    | false => exact Or.inl rfl
    | true =>
      simp only [DataSource.AllowedCookies, if_true]
      cases sj.Get jd "keepCookies" <;> cases sj.Get jd "allowedCookiePattern" <;>
        cases sj.Get jd "allowedCookieOption" <;> simp only <;>
        first
        | exact Or.inl rfl
        | (split
           · rename_i h
             exact h
           · exact Or.inl rfl)

theorem AllowedCookies_KeepCookies_eq {J : Type} (sj : SimpleJson J) (ds : DataSource J)
    (flag : Bool) :
    (ds.AllowedCookies sj flag).KeepCookies =
      match ds.JsonData with
      | none => []
      | some jd =>
        match sj.Get jd "keepCookies" with
        | some kc => sj.MustStringArray kc
        | none => [] := by
  obtain ⟨i, uid, jd⟩ := ds
  cases jd with
  | none => rfl
  | some jd =>
    cases flag with
    | false =>
      simp only [DataSource.AllowedCookies]
      cases sj.Get jd "keepCookies" <;> rfl
    | true =>
      simp only [DataSource.AllowedCookies, if_true]
      cases sj.Get jd "keepCookies" <;> cases sj.Get jd "allowedCookiePattern" <;>
        cases sj.Get jd "allowedCookieOption" <;> simp only <;>
        first
        | rfl
        | (split <;> rfl)

theorem stringsOf_map_str (ss : List String) : stringsOf (ss.map Json.str) = some ss := by
  induction ss with
  | nil => rfl
  | cons s rest ih => simp [stringsOf, ih]

theorem stringsOf_of_texts (xs : List Json)
    (h : ∀ x ∈ xs, x = .null ∨ ∃ s, x = .str s) :
    stringsOf xs = some (xs.map elementText) := by
  induction xs with
  | nil => rfl
  | cons x rest ih =>
    have hr := ih (fun y hy => h y (List.mem_cons_of_mem _ hy))
    rcases h x (List.mem_cons_self _ _) with hx | ⟨t, hx⟩
    · subst hx
      simp [stringsOf, hr, elementText]
    · subst hx
      simp [stringsOf, hr, elementText]

theorem stringsOf_of_other (xs : List Json)
    (h : ∃ x ∈ xs, x ≠ .null ∧ ∀ s, x ≠ .str s) : stringsOf xs = none := by
  induction xs with
  | nil =>
    obtain ⟨x, hx, _⟩ := h
    simp at hx
  | cons y rest ih =>
    obtain ⟨x, hx, hnull, hstr⟩ := h
    rcases List.mem_cons.1 hx with hxy | hxr
    · subst hxy
      cases x with
      | null => exact absurd rfl hnull
      | str t => exact absurd rfl (hstr t)
      | bool b => rfl
      | num n => rfl
      | arr ys => rfl
      | obj kvs => rfl
    · have hr := ih ⟨x, hxr, hnull, hstr⟩
      cases y with
      | null => simp [stringsOf, hr]
      | str t => simp [stringsOf, hr]
      | bool b => rfl
      | num n => rfl
      | arr ys => rfl
      | obj kvs => rfl

end Datasources

namespace Datasources

open Ml

theorem treeJson_Get (j : Json) (key : String) :
    treeJson.Get j key = some (treeValue j key) := by
  cases j with
  | obj kvs =>
    simp only [treeJson, treeValue]
    cases mapIndex kvs key <;> rfl
  | null => rfl
  | bool b => rfl
  | num n => rfl
  | str s => rfl
  | arr xs => rfl

theorem MustString_of_stored (jd : Json) (key s : String) (h : storedString jd key s) :
    treeJson.MustString (treeValue jd key) = s := by
  obtain ⟨kvs, hj, hk⟩ := h
  subst hj
  simp [treeValue, hk, treeJson]

theorem stored_of_MustString (jd : Json) (key s : String)
    (h : treeJson.MustString (treeValue jd key) = s) (hs : s ≠ "") :
    storedString jd key s := by
  cases jd with
  | obj kvs =>
    cases hk : mapIndex kvs key with
    | none =>
      simp only [treeValue, hk, treeJson] at h
      exact absurd h.symm hs
    | some v =>
      cases v with
      | str t =>
        simp only [treeValue, hk, treeJson] at h
        exact ⟨kvs, rfl, by rw [hk, h]⟩
      | null => simp only [treeValue, hk, treeJson] at h; exact absurd h.symm hs
      | bool b => simp only [treeValue, hk, treeJson] at h; exact absurd h.symm hs
      | num n => simp only [treeValue, hk, treeJson] at h; exact absurd h.symm hs
      | arr xs => simp only [treeValue, hk, treeJson] at h; exact absurd h.symm hs
      | obj ys => simp only [treeValue, hk, treeJson] at h; exact absurd h.symm hs
  | null => simp only [treeValue, treeJson] at h; exact absurd h.symm hs
  | bool b => simp only [treeValue, treeJson] at h; exact absurd h.symm hs
  | num n => simp only [treeValue, treeJson] at h; exact absurd h.symm hs
  | str t => simp only [treeValue, treeJson] at h; exact absurd h.symm hs
  | arr xs => simp only [treeValue, treeJson] at h; exact absurd h.symm hs

theorem MustStringArray_of_stored (jd : Json) (key : String) (ss : List String)
    (h : storedStrings jd key ss) :
    treeJson.MustStringArray (treeValue jd key) = ss := by
  obtain ⟨kvs, hj, hk⟩ := h
  subst hj
  simp [treeValue, hk, treeJson, stringsOf_map_str]

theorem MustStringArray_of_array (jd : Json) (key : String) (xs : List Json)
    (h : storedArray jd key xs) :
    treeJson.MustStringArray (treeValue jd key) =
      match stringsOf xs with
      | some ss => ss
      | none => [] := by
  obtain ⟨kvs, hj, hk⟩ := h
  subst hj
  simp [treeValue, hk, treeJson]

theorem MustStringArray_of_no_array (jd : Json) (key : String)
    (h : ∀ xs, ¬ storedArray jd key xs) :
    treeJson.MustStringArray (treeValue jd key) = [] := by
  cases jd with
  | obj kvs =>
    cases hk : mapIndex kvs key with
    | none => simp [treeValue, hk, treeJson]
    | some v =>
      cases v with
      | arr xs => exact absurd ⟨kvs, rfl, hk⟩ (h xs)
      | null => simp [treeValue, hk, treeJson]
      | bool b => simp [treeValue, hk, treeJson]
      | num n => simp [treeValue, hk, treeJson]
      | str t => simp [treeValue, hk, treeJson]
      | obj ys => simp [treeValue, hk, treeJson]
  | null => simp [treeValue, treeJson]
  | bool b => simp [treeValue, treeJson]
  | num n => simp [treeValue, treeJson]
  | str t => simp [treeValue, treeJson]
  | arr xs => simp [treeValue, treeJson]

theorem AllowedCookies_tree_flag_on (i : Int) (uid : String) (jd : Json) :
    DataSource.AllowedCookies treeJson { ID := i, UID := uid, JsonData := some jd } true =
      { MatchOption :=
          if treeJson.MustString (treeValue jd "allowedCookieOption") = "exact_match" ∨
              treeJson.MustString (treeValue jd "allowedCookieOption") = "regex_match" then
            treeJson.MustString (treeValue jd "allowedCookieOption")
          else "exact_match",
        MatchPattern := treeJson.MustString (treeValue jd "allowedCookiePattern"),
        KeepCookies := treeJson.MustStringArray (treeValue jd "keepCookies") } := by
  simp only [DataSource.AllowedCookies, treeJson_Get, if_true, MO_EXACT_MATCH, MO_REGEX_MATCH]
  split <;> rfl

/-- C17.  With the flag on and JSON data `jd` present, `AllowedCookies` returns
as match pattern the string stored under `allowedCookiePattern`, and the empty
string when no string is stored there; as match option the string stored under
`allowedCookieOption` when it is `exact_match` or `regex_match`, and
`exact_match` when neither is stored there.  The match option is one of the
two in every case. -/
theorem AllowedCookies_flag_on (ds : DataSource Json) (jd : Json)
    (hjd : ds.JsonData = some jd) :
    (∀ p, storedString jd "allowedCookiePattern" p →
      (ds.AllowedCookies treeJson true).MatchPattern = p) ∧
    ((∀ p, ¬ storedString jd "allowedCookiePattern" p) →
      (ds.AllowedCookies treeJson true).MatchPattern = "") ∧
    (storedString jd "allowedCookieOption" "exact_match" →
      (ds.AllowedCookies treeJson true).MatchOption = "exact_match") ∧
    (storedString jd "allowedCookieOption" "regex_match" →
      (ds.AllowedCookies treeJson true).MatchOption = "regex_match") ∧
    (¬ storedString jd "allowedCookieOption" "exact_match" →
      ¬ storedString jd "allowedCookieOption" "regex_match" →
      (ds.AllowedCookies treeJson true).MatchOption = "exact_match") ∧
    ((ds.AllowedCookies treeJson true).MatchOption = "exact_match" ∨
      (ds.AllowedCookies treeJson true).MatchOption = "regex_match") := by
  obtain ⟨i, uid, j⟩ := ds
  simp only at hjd
  subst hjd
  rw [AllowedCookies_tree_flag_on]
  refine ⟨?_, ?_, ?_, ?_, ?_, ?_⟩
  · intro p hp
    exact MustString_of_stored jd _ p hp
  · intro hp
    by_contra hne
    exact hp _ (stored_of_MustString jd _ _ rfl hne)
  · intro h
    simp only [MustString_of_stored jd _ _ h, true_or, if_true]
  · intro h
    simp only [MustString_of_stored jd _ _ h, or_true, if_true]
  · intro h1 h2
    have n1 : treeJson.MustString (treeValue jd "allowedCookieOption") ≠ "exact_match" :=
      fun e => h1 (stored_of_MustString jd _ _ e (by decide))
    have n2 : treeJson.MustString (treeValue jd "allowedCookieOption") ≠ "regex_match" :=
      fun e => h2 (stored_of_MustString jd _ _ e (by decide))
    simp only [n1, n2, or_self, if_false]
  · simp only
    split
    · rename_i h
      exact h
    · exact Or.inl rfl

theorem AllowedCookies_flag_on_witness :
    (DataSource.mk 1235 "test" (some regexJsonData)).JsonData = some regexJsonData ∧
    storedString regexJsonData "allowedCookiePattern" ".*" ∧
    storedString regexJsonData "allowedCookieOption" "regex_match" ∧
    (DataSource.AllowedCookies treeJson (DataSource.mk 1235 "test" (some regexJsonData))
        true).MatchPattern = ".*" ∧
    (DataSource.AllowedCookies treeJson (DataSource.mk 1235 "test" (some regexJsonData))
        true).MatchOption = "regex_match" :=
  ⟨rfl, ⟨_, rfl, rfl⟩, ⟨_, rfl, rfl⟩,
    (AllowedCookies_flag_on (DataSource.mk 1235 "test" (some regexJsonData)) regexJsonData
      rfl).1 ".*" ⟨_, rfl, rfl⟩,
    (AllowedCookies_flag_on (DataSource.mk 1235 "test" (some regexJsonData)) regexJsonData
      rfl).2.2.2.1 ⟨_, rfl, rfl⟩⟩

/-- C18, amended.  Whatever the methods of `simplejson.Json` return, the flag
does not change `KeepCookies`, and `KeepCookies` is empty when `JsonData` is
`nil`.  With JSON data `jd` present: an array of strings stored under
`keepCookies` is returned as it is, the same strings in the same order; an
array whose elements are strings or `null` is returned with the empty string
in the place of each `null`; and `KeepCookies` is empty when the array holds an
element of another type, or when no array is stored there. -/
theorem AllowedCookies_KeepCookies {J : Type} (sj : SimpleJson J) (ds : DataSource J)
    (dt : DataSource Json) (flag : Bool) :
    (ds.AllowedCookies sj true).KeepCookies = (ds.AllowedCookies sj false).KeepCookies ∧
    (ds.JsonData = none →
      (ds.AllowedCookies sj flag).KeepCookies = [] ∧
      (ds.AllowedCookies sj flag).KeepCookies.length = 0) ∧
    (∀ jd, dt.JsonData = some jd →
      (∀ ss, storedStrings jd "keepCookies" ss →
        (dt.AllowedCookies treeJson flag).KeepCookies = ss) ∧
      (∀ xs, storedArray jd "keepCookies" xs →
        (∀ x ∈ xs, x = .null ∨ ∃ s, x = .str s) →
        (dt.AllowedCookies treeJson flag).KeepCookies = xs.map elementText) ∧
      (∀ xs, storedArray jd "keepCookies" xs →
        (∃ x ∈ xs, x ≠ .null ∧ ∀ s, x ≠ .str s) →
        (dt.AllowedCookies treeJson flag).KeepCookies = [] ∧
        (dt.AllowedCookies treeJson flag).KeepCookies.length = 0) ∧
      ((∀ xs, ¬ storedArray jd "keepCookies" xs) →
        (dt.AllowedCookies treeJson flag).KeepCookies = [] ∧
        (dt.AllowedCookies treeJson flag).KeepCookies.length = 0)) := by
  refine ⟨?_, ?_, ?_⟩
  · rw [AllowedCookies_KeepCookies_eq, AllowedCookies_KeepCookies_eq]
  · intro h
    rw [AllowedCookies_KeepCookies_eq, h]
    exact ⟨rfl, rfl⟩
  · intro jd hjd
    rw [AllowedCookies_KeepCookies_eq, hjd]
    simp only [treeJson_Get]
    refine ⟨fun ss hs => MustStringArray_of_stored jd _ ss hs, ?_, ?_, ?_⟩
    · intro xs hx hall
      rw [MustStringArray_of_array jd _ xs hx, stringsOf_of_texts xs hall]
    · intro xs hx hbad
      rw [MustStringArray_of_array jd _ xs hx, stringsOf_of_other xs hbad]
      exact ⟨rfl, rfl⟩
    · intro h
      rw [MustStringArray_of_no_array jd _ h]
      exact ⟨rfl, rfl⟩

/-- C18 at an array with a `null`.  With `keepCookies` equal to
`["a", null, "b"]`, which is not an array of strings, `KeepCookies` is
`["a", "", "b"]`, of length 3, with the flag off and with the flag on. -/
theorem AllowedCookies_null_cookie :
    (∀ ss, ¬ storedStrings nullCookieJsonData "keepCookies" ss) ∧
    storedArray nullCookieJsonData "keepCookies" [.str "a", .null, .str "b"] ∧
    (DataSource.AllowedCookies treeJson (DataSource.mk 1235 "test" (some nullCookieJsonData))
      false).KeepCookies = ["a", "", "b"] ∧
    (DataSource.AllowedCookies treeJson (DataSource.mk 1235 "test" (some nullCookieJsonData))
      true).KeepCookies = ["a", "", "b"] ∧
    (DataSource.AllowedCookies treeJson (DataSource.mk 1235 "test" (some nullCookieJsonData))
      false).KeepCookies.length = 3 := by
  refine ⟨?_, ⟨_, rfl, rfl⟩, rfl, rfl, rfl⟩
  intro ss hs
  obtain ⟨kvs, hj, hk⟩ := hs
  unfold nullCookieJsonData at hj
  injection hj with hj
  subst hj
  simp only [mapIndex, if_true, Option.some.injEq, Json.arr.injEq] at hk
  cases ss with
  | nil => simp at hk
  | cons s1 t =>
    cases t with
    | nil => simp at hk
    | cons s2 t2 => simp at hk

end Datasources

/-!
# Reading a field of a document (`pkg/expr/ml/util.go`)
-/

namespace Ml

/-- The Go types that the type parameter `T` of `readValue` can stand for, as
far as the values of a decoded document tell them apart: the five types such
values have, the empty interface `any`, and every other type, which no such
value has or implements (only its name is kept). -/
inductive GoType where
  | bool
  | float64
  | string
  | slice
  | map
  | any
  | other (name : String)
deriving DecidableEq, Repr

/-- The name of a type, as `%T` and the language write it. -/
def GoType.name : GoType → String
  | .bool => "bool"
  | .float64 => "float64"
  | .string => "string"
  | .slice => "[]interface \x7b\x7d"
  | .map => "map[string]interface \x7b\x7d"
  | .any => "interface \x7b\x7d"
  | .other name => name

/-- The dynamic type of a value held in an `interface{}`; `nil` has none. -/
def dynamicType : Json → Option GoType
  | .null => none
  | .bool _ => some .bool
  | .num _ => some .float64
  | .str _ => some .string
  | .arr _ => some .slice
  | .obj _ => some .map

/-- What the verb `%T` prints for a value. -/
def typeText (v : Json) : String :=
  match dynamicType v with
  | none => "<nil>"
  | some t => t.name

/-- Whether the type assertion `v.(T)` holds: `v` is not `nil` and its dynamic
type is `T`, or `T` is the empty interface. -/
def assertsTo (T : GoType) (v : Json) : Bool :=
  match dynamicType v with
  | none => false
  | some t => decide (T = .any) || decide (t = T)

/-- The function `readValue[T]`.  The zero value that the source returns
beside an error is left out. -/
def readValue (T : GoType) (query : Fields) (key : String) : Except GoError Json :=
  match mapIndex query key with
  | none => .error (.New ("required field '" ++ key ++ "' is missing"))
  | some v =>
    if assertsTo T v then .ok v
    else .error (.New ("field '" ++ key ++ "' has type " ++ typeText v ++
      " but expected string"))

end Ml

namespace Ml

/-! ## Claim C20 -/

theorem readValue_present (T : GoType) (query : Fields) (key : String) (v : Json)
    (hv : mapIndex query key = some v) (ht : assertsTo T v = true) :
    readValue T query key = .ok v := by
  simp [readValue, hv, ht]

theorem readValue_missing (T : GoType) (query : Fields) (key : String)
    (hv : mapIndex query key = none) :
    readValue T query key = .error (.New ("required field '" ++ key ++ "' is missing")) := by
  simp [readValue, hv]

theorem readValue_mismatch (T : GoType) (query : Fields) (key : String) (v : Json)
    (hv : mapIndex query key = some v) (ht : assertsTo T v = false) :
    readValue T query key =
      .error (.New ("field '" ++ key ++ "' has type " ++ typeText v ++
        " but expected string")) := by
  simp [readValue, hv, ht]

/-- C20 at the type `float64`.  Reading the key `k` of `{"k":true}` as a
`float64` fails with "field 'k' has type bool but expected string": the
message names the key and the type of the value, and names `string` where the
expected type is `float64`. -/
theorem readValue_float64_of_bool :
    readValue .float64 [("k", .bool true)] "k" =
      .error (.New "field 'k' has type bool but expected string") ∧
    GoType.name .float64 = "float64" ∧
    readValue .float64 [("k", .bool true)] "k" ≠
      .error (.New ("field 'k' has type bool but expected " ++ GoType.name .float64)) :=
  ⟨rfl, rfl, by
    intro h
    have h1 : readValue .float64 [("k", .bool true)] "k" =
        .error (.New "field 'k' has type bool but expected string") := rfl
    rw [h1] at h
    injection h with h
    injection h with h
    exact absurd h (by decide)⟩

end Ml

namespace Ml

/-- The function `readOptionalValue[T]`.  Its first result is a `*T`: `none`
is the `nil` pointer, `some v` a pointer to `v`. -/
def readOptionalValue (T : GoType) (query : Fields) (key : String) :
    Except GoError (Option Json) :=
  match mapIndex query key with
  | none => .error (.New ("required field '" ++ key ++ "' is missing"))
  | some v =>
    if assertsTo T v then .ok (some v)
    else .error (.New ("field '" ++ key ++ "' has type " ++ typeText v ++
      " but expected string"))

end Ml

namespace Ml

/-! ## Claim C21 -/

theorem readOptionalValue_eq_map (T : GoType) (query : Fields) (key : String) :
    readOptionalValue T query key =
      match readValue T query key with
      | .error err => .error err
      | .ok v => .ok (some v) := by
  unfold readOptionalValue readValue
  cases mapIndex query key with
  | none => rfl
  | some v =>
    simp only
    split <;> rfl

/-- C21.  `readOptionalValue` does what `readValue` does, for every type,
document and key: it fails exactly when `readValue` fails, with the same
error; when `readValue` returns `v` it returns a pointer to `v` that is not
`nil`, and it never returns `nil` without an error.  For a key that is
missing it fails with "required field '<key>' is missing". -/
theorem readOptionalValue_same_as_readValue (T : GoType) (query : Fields) (key : String) :
    (∀ err, readOptionalValue T query key = .error err ↔ readValue T query key = .error err) ∧
    (∀ v, readOptionalValue T query key = .ok (some v) ↔ readValue T query key = .ok v) ∧
    readOptionalValue T query key ≠ .ok none ∧
    (mapIndex query key = none →
      readOptionalValue T query key =
        .error (.New ("required field '" ++ key ++ "' is missing")) ∧
      readValue T query key =
        .error (.New ("required field '" ++ key ++ "' is missing"))) := by
  rw [readOptionalValue_eq_map]
  refine ⟨?_, ?_, ?_, ?_⟩
  · intro err
    cases readValue T query key with
    | error e => simp
    | ok v => simp
  · intro v
    cases readValue T query key with
    | error e => simp
    | ok w => simp
  · cases readValue T query key with
    | error e => simp
    | ok w => simp
  · intro h
    rw [readValue_missing T query key h]
    exact ⟨rfl, rfl⟩

end Ml
